import Mathlib

/-!
Verification of the segment-merging / serialization core of
`extract_empatica_data/data_wrangling.py`.

The Python code is shallowly embedded: Python numbers (ints and IEEE
floats) are modelled as exact rationals `ℚ` (every Python float is a
dyadic rational, so `ℚ` is a superset of the float values; all concrete
values appearing in the claims are exactly representable), Python lists
as `List`, dict field access as `Option` lookup (a missing key raises
`KeyError`, which the source catches per record), and the Streamlit
calls `st.info` / `st.error` / `st.success` as an explicit event list.
-/

/- ### Pure numeric helpers -/

/-- Python `round` on a rational: round half to even (bankers rounding). -/
def roundHE (q : ℚ) : ℤ :=
  let f := ⌊q⌋
  if q - f < 1/2 then f
  else if 1/2 < q - f then f + 1
  else if f % 2 = 0 then f else f + 1

/-- Python `round(x, 3)` (line 112 of data_wrangling.py). -/
def round3 (q : ℚ) : ℚ := (roundHE (1000 * q) : ℚ) / 1000

/-- `numpy.linspace(a, b, num=n, endpoint=True)` over exact rationals:
`n` evenly spaced points from `a` to `b` inclusive; `num=1` gives `[a]`
with no division, `num=0` gives `[]`. -/
def linspace (a b : ℚ) (n : ℕ) : List ℚ :=
  if n = 0 then []
  else if n = 1 then [a]
  else (List.range n).map (fun (i : ℕ) => a + (i : ℚ) * ((b - a) / ((n : ℚ) - 1)))

/- ### Data model for parsed avro records -/

/-- One measure block inside a record, i.e. `raw_data['rawData'][measure]`.
Each field is `Option` because the corresponding key may be absent
(Python `KeyError` on access, caught by the `except` at line 122). -/
structure MeasureBlock where
  samplingFrequency : Option ℚ
  values : Option (List ℚ)
  timestampStart : Option ℚ
deriving DecidableEq

/-- One element of `raw_datas`. `rawData` is `none` when the record has no
(dict) `'rawData'` key. Measures are looked up by name. -/
structure RawRecord where
  rawData : Option (List (String × MeasureBlock))
deriving DecidableEq

/-- The accumulated `fs_combine` / `data_combine` / `tstamp_combine` lists
of `extract_signal_streamlit`; also the shape of the returned `data_dict`. -/
structure SignalAcc where
  fs : List ℚ
  samples : List ℚ
  tstamps : List ℚ
deriving DecidableEq

/-- Streamlit UI events emitted by `extract_signal_streamlit`. -/
inductive StEvent where
  /-- `st.info` time-gap report (lines 111-115); carries the loop index
  and the rounded gap value. -/
  | infoGap (fileIdx : ℕ) (gap : ℚ)
  /-- `st.error` for a record whose extraction raised (line 123). -/
  | errorExtract (fileIdx : ℕ)
  /-- final `st.success` (line 125); carries `len(raw_datas)`. -/
  | successDone (numFiles : ℕ)
deriving DecidableEq

/-- One iteration of the `for file_idx, raw_data in enumerate(raw_datas)`
loop (lines 99-123).  The appends happen in source order inside the
`try`, so a failure partway through leaves the earlier appends in place:
`fs` is appended before `values` is read, `samples` is extended before
`timestampStart` is read.  `sampling_frequency == 0` raises
`ZeroDivisionError` at line 109 (before the gap report and the
timestamp append). -/
def extractStep (measure : String) (fileIdx : ℕ) (acc : SignalAcc) (r : RawRecord) :
    SignalAcc × List StEvent :=
  match r.rawData with
  | none => (acc, [.errorExtract fileIdx])
  | some rd =>
    match rd.lookup measure with
    | none => (acc, [.errorExtract fileIdx])
    | some mb =>
      match mb.samplingFrequency with
      | none => (acc, [.errorExtract fileIdx])
      | some sf =>
        let acc1 : SignalAcc := { acc with fs := acc.fs ++ [sf] }
        match mb.values with
        | none => (acc1, [.errorExtract fileIdx])
        | some vals =>
          let acc2 : SignalAcc := { acc1 with samples := acc1.samples ++ vals }
          match mb.timestampStart with
          | none => (acc2, [.errorExtract fileIdx])
          | some ts =>
            if sf = 0 then (acc2, [.errorExtract fileIdx])
            else
              let start_s := ts / 1000000
              let end_s := start_s + ((vals.length : ℚ) - 1) / sf
              let gapEvs :=
                match acc2.tstamps.getLast? with
                | some lastT => [StEvent.infoGap fileIdx (round3 (start_s - lastT))]
                | none => []
              ({ acc2 with tstamps := acc2.tstamps ++ linspace start_s end_s vals.length },
               gapEvs)

/-- The whole loop of `extract_signal_streamlit`, threading the
accumulator and concatenating events in order. -/
def extractLoop (measure : String) : ℕ → SignalAcc → List RawRecord → SignalAcc × List StEvent
  | _, acc, [] => (acc, [])
  | i, acc, r :: rs =>
    let p := extractStep measure i acc r
    let rest := extractLoop measure (i + 1) p.1 rs
    (rest.1, p.2 ++ rest.2)

/-- `extract_signal_streamlit(raw_datas, measure)` (lines 78-133): returns
the `data_dict` together with the emitted UI events. -/
def extract_signal_streamlit (raw_datas : List RawRecord) (measure : String) :
    SignalAcc × List StEvent :=
  let p := extractLoop measure 0 ⟨[], [], []⟩ raw_datas
  (p.1, p.2 ++ [.successDone raw_datas.length])

/- ### Claims about the Signal Extractor -/

lemma linspace_eq_grid (a sf : ℚ) (hsf : sf ≠ 0) (n : ℕ) (hn : 1 ≤ n) :
    linspace a (a + ((n : ℚ) - 1) / sf) n
      = (List.range n).map (fun (i : ℕ) => a + (i : ℚ) / sf) := by
  rcases Nat.lt_or_ge n 2 with h2 | h2
  · interval_cases n
    · simp [linspace, List.range_succ]
  · have hn0 : n ≠ 0 := by omega
    have hn1 : n ≠ 1 := by omega
    have hnq : ((n : ℚ) - 1) ≠ 0 := by
      have : (2 : ℚ) ≤ (n : ℚ) := by exact_mod_cast h2
      linarith
    simp only [linspace, if_neg hn0, if_neg hn1]
    apply List.map_congr_left
    intro i _
    field_simp
    ring

/-- Claim C1 is a code bug: the invariant `len(samples) == len(tstamps)` is
violated when a record fails after its values were already appended.  The
record `{'rawData': {'eda': {'samplingFrequency': 4, 'values': [1, 2]}}}`
(no `timestampStart`) has its two samples extended into `data_combine` at
line 105 before the `KeyError` at line 107 is caught, so the returned
dict has 2 samples and 0 tstamps. -/
theorem c1_length_invariant_code_bug :
    ((extract_signal_streamlit [⟨some [("eda", ⟨some 4, some [1, 2], none⟩)]⟩] "eda").1.samples.length = 2)
    ∧ ((extract_signal_streamlit [⟨some [("eda", ⟨some 4, some [1, 2], none⟩)]⟩] "eda").1.tstamps.length = 0)
    ∧ (extract_signal_streamlit [⟨some [("eda", ⟨some 4, some [1, 2], none⟩)]⟩] "eda").2
        = [StEvent.errorExtract 0, StEvent.successDone 1]
    ∧ (extract_signal_streamlit [⟨some [("eda", ⟨some 4, some [1, 2], none⟩)]⟩] "eda").1.samples.length
        ≠ (extract_signal_streamlit [⟨some [("eda", ⟨some 4, some [1, 2], none⟩)]⟩] "eda").1.tstamps.length := by
  simp [extract_signal_streamlit, extractLoop, extractStep]

/-- Claim C2 is a code bug: extraction of a segment is not all-or-nothing.
The record `{'rawData': {'eda': {'samplingFrequency': 4}}}` (no `values`)
fails at line 104, yet its sampling frequency was already appended to
`fs_combine` at line 102: the returned `fs` has length 1 although 0
segments passed extraction (the only record emitted an error event). -/
theorem c2_atomicity_code_bug :
    ((extract_signal_streamlit [⟨some [("eda", ⟨some 4, none, none⟩)]⟩] "eda").1.fs = [4])
    ∧ (extract_signal_streamlit [⟨some [("eda", ⟨some 4, none, none⟩)]⟩] "eda").2
        = [StEvent.errorExtract 0, StEvent.successDone 1]
    ∧ (extract_signal_streamlit [⟨some [("eda", ⟨some 4, none, none⟩)]⟩] "eda").1.fs.length ≠ 0 := by
  simp [extract_signal_streamlit, extractLoop, extractStep]

/-- Claim C3, counterexample: with segment A ending at timestamp 10 s and
segment B starting at 10.5 s, the code reports a gap of `+0.5`
(new start minus previous last), whereas the claimed formula
`previous_last_timestamp - start_s` rounds to `-0.5`; the two differ. -/
theorem c3_gap_sign_counterexample :
    (extract_signal_streamlit
        [⟨some [("eda", ⟨some 1, some [5, 6], some 9000000⟩)]⟩,
         ⟨some [("eda", ⟨some 4, some [7, 8], some 10500000⟩)]⟩] "eda").1.tstamps
      = [9, 10, 21/2, 43/4]
    ∧ (extract_signal_streamlit
        [⟨some [("eda", ⟨some 1, some [5, 6], some 9000000⟩)]⟩,
         ⟨some [("eda", ⟨some 4, some [7, 8], some 10500000⟩)]⟩] "eda").2
      = [StEvent.infoGap 1 (1/2), StEvent.successDone 2]
    ∧ round3 (10 - 21/2) = -(1/2)
    ∧ ((1:ℚ)/2) ≠ -(1/2) := by
  refine ⟨?_, ?_, ?_, by norm_num⟩
  · simp [extract_signal_streamlit, extractLoop, extractStep, linspace, List.range_succ,
      round3, roundHE]
    norm_num
  · simp [extract_signal_streamlit, extractLoop, extractStep, linspace, List.range_succ,
      round3, roundHE]
    norm_num
  · have h1 : (10 : ℚ) - 21/2 = -(1/2) := by norm_num
    rw [h1]
    have h2 : (1000 : ℚ) * (-(1/2)) = -500 := by norm_num
    rw [round3, h2]
    norm_num [roundHE]

/-- Claim C3, amended: for every record that reaches the gap report (all
three keys present and a nonzero sampling frequency) while at least one
timestamp has already been accumulated, the reported event is a single
informational event (never an error) whose value is the new segment start
`start_s` minus the previous last accumulated timestamp, rounded to
millisecond precision. -/
theorem c3_gap_amended (measure : String) (idx : ℕ) (acc : SignalAcc) (r : RawRecord)
    (rd : List (String × MeasureBlock)) (mb : MeasureBlock) (sf : ℚ) (vals : List ℚ)
    (ts lastT : ℚ)
    (h1 : r.rawData = some rd) (h2 : rd.lookup measure = some mb)
    (h3 : mb.samplingFrequency = some sf) (h4 : mb.values = some vals)
    (h5 : mb.timestampStart = some ts) (h6 : sf ≠ 0)
    (h7 : acc.tstamps.getLast? = some lastT) :
    (extractStep measure idx acc r).2
      = [StEvent.infoGap idx (round3 (ts / 1000000 - lastT))] := by
  simp [extractStep, h1, h2, h3, h4, h5, h6, h7]

/-- Witness for `c3_gap_amended` at a concrete record. -/
theorem c3_gap_amended_witness :
    (extractStep "eda" 1 ⟨[1], [5, 6], [9, 10]⟩
        ⟨some [("eda", ⟨some 4, some [7, 8], some 10500000⟩)]⟩).2
      = [StEvent.infoGap 1 (round3 (10500000 / 1000000 - 10))] :=
  c3_gap_amended "eda" 1 _ _ _ _ _ _ _ _ rfl rfl rfl rfl rfl (by norm_num) rfl

/-- Claim C4: segment A produces timestamps `[9, 10]` (so it ends at
10.000 s); a following segment starting at 10.5 s is reported with gap
`+0.5`, and one starting at 9.8 s (overlap) with gap `-0.2`, both rounded
to 3 decimals and emitted as informational events. -/
theorem c4_gap_values :
    (extract_signal_streamlit [⟨some [("eda", ⟨some 1, some [5, 6], some 9000000⟩)]⟩] "eda").1.tstamps
      = [9, 10]
    ∧ (extract_signal_streamlit
        [⟨some [("eda", ⟨some 1, some [5, 6], some 9000000⟩)]⟩,
         ⟨some [("eda", ⟨some 4, some [7, 8], some 10500000⟩)]⟩] "eda").2
      = [StEvent.infoGap 1 (1/2), StEvent.successDone 2]
    ∧ (extract_signal_streamlit
        [⟨some [("eda", ⟨some 1, some [5, 6], some 9000000⟩)]⟩,
         ⟨some [("eda", ⟨some 4, some [7, 8], some 9800000⟩)]⟩] "eda").2
      = [StEvent.infoGap 1 (-(1/5)), StEvent.successDone 2] := by
  refine ⟨?_, ?_, ?_⟩ <;>
    simp [extract_signal_streamlit, extractLoop, extractStep, linspace, List.range_succ,
      round3, roundHE] <;> norm_num [Int.fract]

/-- Claim C5: a successfully processed segment with `n >= 1` values,
sampling frequency `sf > 0` and start marker `ts` microseconds appends
exactly `n` timestamps forming the uniform grid
`start_s + i/sf` for `i = 0 .. n-1`, i.e. evenly spaced points inclusive
of both endpoints of `[start_s, start_s + (n-1)/sf]`; in particular
`sf = 4`, start 0, 5 values yields `[0, 1/4, 1/2, 3/4, 1]`, and a single
value yields just `[start_s]`. -/
theorem c5_timestamp_grid (measure : String) (idx : ℕ) (acc : SignalAcc) (r : RawRecord)
    (rd : List (String × MeasureBlock)) (mb : MeasureBlock) (sf : ℚ) (vals : List ℚ) (ts : ℚ)
    (h1 : r.rawData = some rd) (h2 : rd.lookup measure = some mb)
    (h3 : mb.samplingFrequency = some sf) (h4 : mb.values = some vals)
    (h5 : mb.timestampStart = some ts) (hsf : 0 < sf) (hn : 1 ≤ vals.length) :
    ((extractStep measure idx acc r).1.tstamps
        = acc.tstamps ++ (List.range vals.length).map (fun (i : ℕ) => ts / 1000000 + (i : ℚ) / sf))
    ∧ linspace (ts / 1000000) (ts / 1000000 + ((vals.length : ℚ) - 1) / sf) vals.length
        = (List.range vals.length).map (fun (i : ℕ) => ts / 1000000 + (i : ℚ) / sf)
    ∧ ((List.range vals.length).map (fun (i : ℕ) => ts / 1000000 + (i : ℚ) / sf)).length = vals.length
    ∧ ((List.range vals.length).map (fun (i : ℕ) => ts / 1000000 + (i : ℚ) / sf)).head?
        = some (ts / 1000000)
    ∧ ((List.range vals.length).map (fun (i : ℕ) => ts / 1000000 + (i : ℚ) / sf)).getLast?
        = some (ts / 1000000 + ((vals.length : ℚ) - 1) / sf)
    ∧ (extract_signal_streamlit
        [⟨some [("eda", ⟨some 4, some [1, 2, 3, 4, 5], some 0⟩)]⟩] "eda").1.tstamps
        = [0, 1/4, 1/2, 3/4, 1]
    ∧ (extract_signal_streamlit
        [⟨some [("eda", ⟨some 4, some [9], some 12000000⟩)]⟩] "eda").1.tstamps = [12] := by
  have hsf0 : sf ≠ 0 := ne_of_gt hsf
  have hgrid := linspace_eq_grid (ts / 1000000) sf hsf0 vals.length hn
  obtain ⟨m, hm⟩ : ∃ m, vals.length = m + 1 := ⟨vals.length - 1, by omega⟩
  refine ⟨?_, hgrid, by rw [List.length_map, List.length_range], ?_, ?_, ?_, ?_⟩
  · simp only [extractStep, h1, h2, h3, h4, h5, if_neg hsf0]
    rw [hgrid]
  · rw [hm, List.range_succ_eq_map]
    simp
  · rw [hm, List.range_succ, List.map_append]
    simp only [List.map_cons, List.map_nil]
    rw [List.getLast?_concat]
    congr 1
    push_cast
    ring
  · simp [extract_signal_streamlit, extractLoop, extractStep, linspace, List.range_succ]
    norm_num
  · simp [extract_signal_streamlit, extractLoop, extractStep, linspace, List.range_succ]
    norm_num

/-- Witness for `c5_timestamp_grid` at a concrete record. -/
theorem c5_timestamp_grid_witness :
    (extractStep "eda" 0 ⟨[], [], []⟩
        ⟨some [("eda", ⟨some 4, some [1, 2, 3, 4, 5], some 0⟩)]⟩).1.tstamps
      = [] ++ (List.range 5).map (fun (i : ℕ) => 0 / 1000000 + (i : ℚ) / 4) :=
  (c5_timestamp_grid "eda" 0 ⟨[], [], []⟩ ⟨some [("eda", ⟨some 4, some [1, 2, 3, 4, 5], some 0⟩)]⟩
    [("eda", ⟨some 4, some [1, 2, 3, 4, 5], some 0⟩)] ⟨some 4, some [1, 2, 3, 4, 5], some 0⟩
    4 [1, 2, 3, 4, 5] 0 rfl rfl rfl rfl rfl (by norm_num) (by norm_num)).1

/-- Claim C9: a record whose `values` list is empty (and whose keys are all
present, with nonzero sampling frequency) is processed without failure:
it contributes zero samples and zero timestamps, but its sampling
frequency is still appended to `fs`, and no error event is emitted. -/
theorem c9_empty_segment (measure : String) (idx : ℕ) (acc : SignalAcc) (r : RawRecord)
    (rd : List (String × MeasureBlock)) (mb : MeasureBlock) (sf : ℚ) (ts : ℚ)
    (h1 : r.rawData = some rd) (h2 : rd.lookup measure = some mb)
    (h3 : mb.samplingFrequency = some sf) (h4 : mb.values = some [])
    (h5 : mb.timestampStart = some ts) (h6 : sf ≠ 0) :
    (extractStep measure idx acc r).1.fs = acc.fs ++ [sf]
    ∧ (extractStep measure idx acc r).1.samples = acc.samples
    ∧ (extractStep measure idx acc r).1.tstamps = acc.tstamps
    ∧ ∀ i, StEvent.errorExtract i ∉ (extractStep measure idx acc r).2 := by
  simp only [extractStep, h1, h2, h3, h4, h5, if_neg h6]
  cases h : acc.tstamps.getLast? <;> simp [linspace, h]

/-- Witness for `c9_empty_segment` at a concrete record. -/
theorem c9_empty_segment_witness :
    (extractStep "eda" 0 ⟨[2], [7], [3]⟩ ⟨some [("eda", ⟨some 4, some [], some 5000000⟩)]⟩).1.fs
      = [2] ++ [4] :=
  (c9_empty_segment "eda" 0 ⟨[2], [7], [3]⟩ ⟨some [("eda", ⟨some 4, some [], some 5000000⟩)]⟩
    [("eda", ⟨some 4, some [], some 5000000⟩)] ⟨some 4, some [], some 5000000⟩
    4 5000000 rfl rfl rfl rfl rfl (by norm_num)).1

/- ### Segment ordering: extract_start_tstamp and the stable sort -/

/-- Numeric value of a run of decimal digit characters, most significant
first (what Python `int(match.group(1))` yields on the captured run). -/
def digitRunVal (ds : List Char) : ℕ := ds.foldl (fun a c => 10 * a + (c.toNat - 48)) 0

/-- `extract_start_tstamp(filename)` (lines 20-35).  The regex search
`(\d{10})(?=\.avro$)` succeeds iff the string ends in `".avro"` with its
10 preceding characters all digits (the lookahead pins the match to
positions `len-15 .. len-6`), and captures exactly those 10 characters.
`none` stands for the `float('inf')` sentinel returned on no match.
(Python `$` would also accept one trailing newline; the only caller
filters to names that end in `".avro"`, where both readings agree.) -/
def extract_start_tstamp (filename : List Char) : Option ℕ :=
  if 15 ≤ filename.length ∧ filename.drop (filename.length - 5) = ".avro".toList
      ∧ ((filename.drop (filename.length - 15)).take 10).all Char.isDigit
  then some (digitRunVal ((filename.drop (filename.length - 15)).take 10))
  else none

/-- Ascending order on sort keys with the no-match sentinel
(`float('inf')`, here `none`) largest. -/
def keyLE : Option ℕ → Option ℕ → Bool
  | some x, some y => x ≤ y
  | _, none => true
  | none, some _ => false

/-- Comparison of two filenames by `extract_start_tstamp`, as used by
`sorted(avro_files, key=extract_start_tstamp)` at line 60. -/
def fileLE (a b : List Char) : Bool := keyLE (extract_start_tstamp a) (extract_start_tstamp b)

/-- Lines 56-60 of `reading_avro_files`: keep the names ending in
`".avro"` and stable-sort them ascending by the start-timestamp key.
Python `sorted` is a stable sort, and a stable sort by a total preorder
has a unique output, so `List.mergeSort` models it exactly. -/
def sorted_avro_files (uploaded : List (List Char)) : List (List Char) :=
  (uploaded.filter (fun f => (".avro".toList).isSuffixOf f)).mergeSort fileLE

lemma keyLE_trans (a b c : Option ℕ) (h1 : keyLE a b = true) (h2 : keyLE b c = true) :
    keyLE a c = true := by
  cases a <;> cases b <;> cases c <;> simp_all [keyLE]
  all_goals omega

lemma keyLE_total (a b : Option ℕ) : (keyLE a b || keyLE b a) = true := by
  cases a <;> cases b <;> simp [keyLE]
  all_goals omega

lemma fileLE_trans (a b c : List Char) (h1 : fileLE a b = true) (h2 : fileLE b c = true) :
    fileLE a c = true :=
  keyLE_trans _ _ _ h1 h2

lemma fileLE_total (a b : List Char) : (fileLE a b || fileLE b a) = true :=
  keyLE_total _ _

/-- Claim C6: `extract_start_tstamp` returns `some v` exactly when the
identifier ends in the container suffix immediately preceded by a
10-digit run whose value is `v` (and the infinity sentinel, `none`,
otherwise); sorting any identifier list with this key is a permutation
that is ascending in the key, puts all markerless identifiers last, and,
being stable, preserves the original relative order within every class
of identifiers sharing a key (in particular among markerless ones). -/
theorem c6_order_key_and_sort :
    (∀ (name : List Char) (v : ℕ),
        extract_start_tstamp name = some v ↔
          ∃ pre run, name = pre ++ run ++ ".avro".toList ∧ run.length = 10
            ∧ run.all Char.isDigit = true ∧ digitRunVal run = v)
    ∧ (∀ files : List (List Char),
        List.Pairwise (fun a b => fileLE a b = true) (files.mergeSort fileLE)
        ∧ (files.mergeSort fileLE).Perm files
        ∧ List.Pairwise
            (fun a b => extract_start_tstamp a = none → extract_start_tstamp b = none)
            (files.mergeSort fileLE)
        ∧ ∀ k : Option ℕ,
            (files.mergeSort fileLE).filter (fun f => extract_start_tstamp f == k)
              = files.filter (fun f => extract_start_tstamp f == k)) := by
  constructor
  · intro name v
    constructor
    · intro h
      unfold extract_start_tstamp at h
      split at h
      case isTrue hc =>
        obtain ⟨hlen, hsuf, hdig⟩ := hc
        refine ⟨name.take (name.length - 15), (name.drop (name.length - 15)).take 10,
          ?_, ?_, hdig, ?_⟩
        · have hdd : (name.drop (name.length - 15)).drop 10 = ".avro".toList := by
            rw [List.drop_drop]
            have he : name.length - 15 + 10 = name.length - 5 := by omega
            rw [he, hsuf]
          rw [← hdd, List.append_assoc, List.take_append_drop, List.take_append_drop]
        · rw [List.length_take, List.length_drop]
          omega
        · exact (Option.some_inj.mp h)
      case isFalse hc => exact absurd h (by simp)
    · rintro ⟨pre, run, hname, hrun, hdig, hval⟩
      have hn : name.length = pre.length + 15 := by
        subst hname
        simp [List.length_append, hrun]
      have hd5 : name.drop (name.length - 5) = ".avro".toList := by
        have h1 : name = (pre ++ run) ++ ".avro".toList := by rw [hname, List.append_assoc]
        have h2 : name.length - 5 = (pre ++ run).length := by
          rw [List.length_append, hrun]
          omega
        rw [h2, h1, List.drop_left]
      have hd15 : name.drop (name.length - 15) = run ++ ".avro".toList := by
        have h2 : name.length - 15 = pre.length := by omega
        rw [h2, hname, List.append_assoc, List.drop_left]
      have ht10 : (name.drop (name.length - 15)).take 10 = run := by
        rw [hd15, ← hrun, List.take_left]
      unfold extract_start_tstamp
      rw [if_pos ⟨by omega, hd5, by rw [ht10]; exact hdig⟩, ht10, hval]
  · intro files
    refine ⟨List.sorted_mergeSort fileLE_trans fileLE_total files,
      List.mergeSort_perm files fileLE, ?_, ?_⟩
    · apply (List.sorted_mergeSort fileLE_trans fileLE_total files).imp
      intro a b hab hna
      unfold fileLE at hab
      rw [hna] at hab
      cases hb : extract_start_tstamp b
      · rfl
      · rw [hb] at hab
        simp [keyLE] at hab
    · intro k
      set p : List Char → Bool := fun f => extract_start_tstamp f == k with hp
      have hself : (files.filter p).filter p = files.filter p :=
        List.filter_eq_self.mpr (fun a ha => (List.mem_filter.mp ha).2)
      have hpw : (files.filter p).Pairwise (fun a b => fileLE a b = true) := by
        apply List.pairwise_of_forall_mem_list
        intro a ha b hb
        have hka2 : extract_start_tstamp a = k := by
          simpa [hp] using (List.mem_filter.mp ha).2
        have hkb2 : extract_start_tstamp b = k := by
          simpa [hp] using (List.mem_filter.mp hb).2
        unfold fileLE
        rw [hka2, hkb2]
        cases k with
        | none => rfl
        | some x => simp [keyLE]
      have hsub : (files.filter p).Sublist (files.mergeSort fileLE) :=
        List.sublist_mergeSort fileLE_trans fileLE_total hpw (List.filter_sublist files)
      have hsub2 : (files.filter p).Sublist ((files.mergeSort fileLE).filter p) := by
        have h4 := hsub.filter p
        rwa [hself] at h4
      have hlen : (files.filter p).length = ((files.mergeSort fileLE).filter p).length :=
        (((List.mergeSort_perm files fileLE).filter p).length_eq).symm
      exact (hsub2.eq_of_length hlen).symm

/-- Witness for `c6_order_key_and_sort` at concrete identifiers. -/
theorem c6_order_key_and_sort_witness :
    extract_start_tstamp "a1234567890.avro".toList = some 1234567890
    ∧ (["b0000000002.avro".toList, "nokey.avro".toList, "a0000000001.avro".toList].mergeSort
        fileLE).Perm
        ["b0000000002.avro".toList, "nokey.avro".toList, "a0000000001.avro".toList] :=
  ⟨(c6_order_key_and_sort.1 "a1234567890.avro".toList 1234567890).mpr
      ⟨"a".toList, "1234567890".toList, by decide, by decide, by decide, by decide⟩,
   (c6_order_key_and_sort.2
      ["b0000000002.avro".toList, "nokey.avro".toList, "a0000000001.avro".toList]).2.1⟩

/- ### Python value model for the serializer -/

/-- A Python float: finite values are modelled as exact rationals (every
IEEE double is a dyadic rational), plus the three non-finite values. -/
inductive PyFloat where
  | fin (q : ℚ)
  | nan
  | inf
  | ninf
deriving DecidableEq

mutual
/-- The universe of Python values that `serialize_data_dict` can receive:
ints, floats, strings, bools, `None`, lists and string-keyed dicts. -/
inductive PyVal where
  | int (n : ℤ)
  | float (f : PyFloat)
  | str (s : List Char)
  | bool (b : Bool)
  | none
  | list (l : PyList)
  | dict (d : PyDict)
deriving DecidableEq

/-- Spine of a Python list of `PyVal`. -/
inductive PyList where
  | nil
  | cons (v : PyVal) (t : PyList)
deriving DecidableEq

/-- Spine of a Python dict with string keys, in insertion order. -/
inductive PyDict where
  | nil
  | cons (k : List Char) (v : PyVal) (t : PyDict)
deriving DecidableEq
end

mutual
/-- `_nan_to_none(x)` (lines 136-146): a float that is NaN or infinite
becomes `None`, a finite float is returned unchanged, lists and dicts
are walked recursively, everything else passes through. -/
def nan_to_none : PyVal → PyVal
  | .float (.fin q) => .float (.fin q)
  | .float .nan => .none
  | .float .inf => .none
  | .float .ninf => .none
  | .list l => .list (nanToNoneList l)
  | .dict d => .dict (nanToNoneDict d)
  | v => v

/-- `_nan_to_none` mapped over a list (line 143). -/
def nanToNoneList : PyList → PyList
  | .nil => .nil
  | .cons v t => .cons (nan_to_none v) (nanToNoneList t)

/-- `_nan_to_none` mapped over dict values (line 145); keys unchanged. -/
def nanToNoneDict : PyDict → PyDict
  | .nil => .nil
  | .cons k v t => .cons k (nan_to_none v) (nanToNoneDict t)
end

mutual
/-- No NaN or infinite float occurs anywhere in the value. -/
def noNonFinite : PyVal → Bool
  | .float .nan => false
  | .float .inf => false
  | .float .ninf => false
  | .list l => noNonFiniteList l
  | .dict d => noNonFiniteDict d
  | _ => true

/-- `noNonFinite` over a list spine. -/
def noNonFiniteList : PyList → Bool
  | .nil => true
  | .cons v t => noNonFinite v && noNonFiniteList t

/-- `noNonFinite` over dict values. -/
def noNonFiniteDict : PyDict → Bool
  | .nil => true
  | .cons _ v t => noNonFinite v && noNonFiniteDict t
end

/- ### Python string helpers used by serialize_data_dict -/

/-- The six ASCII whitespace characters recognised by `str.strip()`. -/
def isPySpace (c : Char) : Bool :=
  c.toNat = 32 || c.toNat = 9 || c.toNat = 10 || c.toNat = 13 || c.toNat = 11 || c.toNat = 12

/-- `str.lower()` on one character (ASCII range, which covers every
format string the code compares against). -/
def lowerChar (c : Char) : Char :=
  if 65 ≤ c.toNat ∧ c.toNat ≤ 90 then Char.ofNat (c.toNat + 32) else c

/-- `str.lower()`. -/
def pyLower (s : List Char) : List Char := s.map lowerChar

/-- `str.strip()`: drop whitespace from both ends. -/
def pyStrip (s : List Char) : List Char :=
  (s.dropWhile isPySpace).rdropWhile isPySpace

/- ### Decimal text for numbers (json.dumps / repr on int and float) -/

/-- Decimal digit character. -/
def digCh (d : ℕ) : Char := Char.ofNat (48 + d)

/-- Decimal digits of a natural number, most significant first. -/
def natChars (n : ℕ) : List Char :=
  if n = 0 then ['0'] else (Nat.digits 10 n).reverse.map digCh

/-- Decimal text of an integer (what `json.dumps` emits for an int). -/
def intChars (n : ℤ) : List Char :=
  if n < 0 then '-' :: natChars n.natAbs else natChars n.natAbs

/-- Exponent of 2 dividing `n`. -/
def twoAdic (n : ℕ) : ℕ :=
  if 2 ≤ n ∧ n % 2 = 0 then twoAdic (n / 2) + 1 else 0
termination_by n
decreasing_by omega

/-- Exponent of 5 dividing `n`. -/
def fiveAdic (n : ℕ) : ℕ :=
  if 5 ≤ n ∧ n % 5 = 0 then fiveAdic (n / 5) + 1 else 0
termination_by n
decreasing_by omega

/-- Plain decimal text of `m / 10^k` with `k` fractional digits (at least
one integer digit, and a forced `.0` when `k = 0`, as `repr` of a float
always shows a decimal point). -/
def decimalOf (m : ℤ) (k : ℕ) : List Char :=
  let ds0 := natChars m.natAbs
  let ds := if ds0.length ≤ k then List.replicate (k + 1 - ds0.length) '0' ++ ds0 else ds0
  (if m < 0 then ['-'] else [])
    ++ ds.take (ds.length - k) ++ '.' :: (if k = 0 then ['0'] else ds.drop (ds.length - k))

/-- Decimal text of a finite float value.  Every value a Python float can
hold is a dyadic rational, whose denominator divides `10^k` for
`k = max (twoAdic den) (fiveAdic den)`, so the first branch is the one
that fires on real inputs; the fallback keeps the function total on all
of `ℚ`.  (Real `repr` prints the shortest round-tripping decimal and
switches to scientific notation for extreme magnitudes; on the dyadic
model values used here the exact expansion is that shortest form.) -/
def qChars (q : ℚ) : List Char :=
  if q.den ∣ 10 ^ max (twoAdic q.den) (fiveAdic q.den) then
    decimalOf (q.num * ((10 ^ max (twoAdic q.den) (fiveAdic q.den) / q.den : ℕ) : ℤ))
      (max (twoAdic q.den) (fiveAdic q.den))
  else "0.0".toList

/-- Text of a float under `json.dumps` (default `allow_nan=True`): finite
values in decimal, and the literals `NaN`, `Infinity`, `-Infinity`. -/
def floatChars : PyFloat → List Char
  | .fin q => qChars q
  | .nan => "NaN".toList
  | .inf => "Infinity".toList
  | .ninf => "-Infinity".toList

/-- Lower-case hex digit. -/
def hexCh (d : ℕ) : Char := if d < 10 then Char.ofNat (48 + d) else Char.ofNat (87 + d)

/-- JSON string escaping with `ensure_ascii=False`: only the quote, the
backslash and control characters are escaped. -/
def escChar (c : Char) : List Char :=
  if c = '"' then ['\\', '"']
  else if c = '\\' then ['\\', '\\']
  else if c = '\n' then ['\\', 'n']
  else if c = '\t' then ['\\', 't']
  else if c = '\r' then ['\\', 'r']
  else if c.toNat = 8 then ['\\', 'b']
  else if c.toNat = 12 then ['\\', 'f']
  else if c.toNat < 32 then ['\\', 'u', '0', '0', hexCh (c.toNat / 16), hexCh (c.toNat % 16)]
  else [c]

/-- JSON escaping of a whole string body. -/
def escStr (s : List Char) : List Char := s.flatMap escChar

/- ### json.dumps with indent=2 and separators=(",", ": ")

`CompactJSONEncoder.__init__` forces `indent=2` and
`separators=(',', ': ')`, so containers are emitted with a newline and
two spaces of indentation per level; list items and dict entries are
separated by `,` + newline + indent, dict keys by `: `.  The model emits
the full text at once (the chunk stream of `iterencode` concatenates to
the same characters). -/

/-- Indentation for a nesting level (2 spaces per level). -/
def ind (lvl : ℕ) : List Char := List.replicate (2 * lvl) ' '

/-- Newline followed by indentation. -/
def nlind (lvl : ℕ) : List Char := '\n' :: ind lvl

mutual
/-- Text of one value at a nesting level. -/
def emitVal : ℕ → PyVal → List Char
  | _, .int n => intChars n
  | _, .float f => floatChars f
  | _, .str s => '"' :: (escStr s ++ ['"'])
  | _, .bool b => if b then "true".toList else "false".toList
  | _, .none => "null".toList
  | _, .list .nil => "[]".toList
  | lvl, .list (l@(.cons _ _)) =>
      '[' :: (nlind (lvl + 1) ++ emitItems (lvl + 1) l ++ nlind lvl ++ [']'])
  | _, .dict .nil => "\x7b\x7d".toList
  | lvl, .dict (d@(.cons _ _ _)) =>
      '\x7b' :: (nlind (lvl + 1) ++ emitPairs (lvl + 1) d ++ nlind lvl ++ ['\x7d'])

/-- List items joined by `,` + newline + indent. -/
def emitItems : ℕ → PyList → List Char
  | _, .nil => []
  | lvl, .cons v .nil => emitVal lvl v
  | lvl, .cons v (t@(.cons _ _)) => emitVal lvl v ++ ',' :: nlind lvl ++ emitItems lvl t

/-- Dict entries `"key": value` joined by `,` + newline + indent. -/
def emitPairs : ℕ → PyDict → List Char
  | _, .nil => []
  | lvl, .cons k v .nil => '"' :: (escStr k ++ '"' :: ':' :: ' ' :: emitVal lvl v)
  | lvl, .cons k v (t@(.cons _ _ _)) =>
      ('"' :: (escStr k ++ '"' :: ':' :: ' ' :: emitVal lvl v))
        ++ ',' :: nlind lvl ++ emitPairs lvl t
end

/-- `json.dumps(obj, ensure_ascii=False, cls=CompactJSONEncoder)` before
the compaction pass: the indent-2 text of the object. -/
def jsonDumps (v : PyVal) : List Char := emitVal 0 v

/-- Python `str.replace(p, q)`: replace non-overlapping occurrences of
`p` left to right.  (For empty `p` Python would insert `q` at every
position; the three patterns used by the encoder are never empty, and
the guard keeps the recursion well founded.) -/
def pyReplace (p q : List Char) : List Char → List Char
  | [] => []
  | c :: s =>
    if p ≠ [] ∧ p.isPrefixOf (c :: s) then q ++ pyReplace p q (s.drop (p.length - 1))
    else c :: pyReplace p q s
termination_by s => s.length
decreasing_by
  · simp [List.length_drop]
    omega
  · simp

/-- The chunk post-processing of `CompactJSONEncoder.iterencode`
(lines 155-160): the three chained `str.replace` calls that pull array
elements onto one line.  Applied here to the whole emitted text; each
replacement rewrites whitespace-plus-bracket patterns only, so applying
it to the concatenation is the claim-relevant behaviour of applying it
chunkwise. -/
def compactChunk (s : List Char) : List Char :=
  pyReplace "\n  ]".toList "]".toList
    (pyReplace "\n    ".toList " ".toList
      (pyReplace "\n  [\n    ".toList " [".toList s))

/- ### serialize_data_dict -/

/-- Python `dict.get(k, default)` over the insertion-ordered model. -/
def dictGet (d : PyDict) (k : List Char) (dflt : PyVal) : PyVal :=
  match d with
  | .nil => dflt
  | .cons k2 v t => if k2 = k then v else dictGet t k dflt

/-- Length of a Python list. -/
def pyListLen : PyList → ℕ
  | .nil => 0
  | .cons _ t => pyListLen t + 1

/-- The bytes returned by `serialize_data_dict`: a pickle blob is opaque
(determined by the dict it serialises), json is UTF-8 text, and the
pandas `to_csv` output is determined by the two columns passed to the
DataFrame (its cell formatting is outside every claim). -/
inductive Blob where
  | pickled (d : PyDict)
  | utf8 (s : List Char)
  | csvFrame (tstamps samples : PyList)
deriving DecidableEq

/-- A raised `ValueError` with its message. -/
inductive SerErr where
  | valueError (msg : List Char)
deriving DecidableEq

/-- The message of the `raise ValueError` at line 207. -/
def unsupportedMsg : List Char :=
  "Unsupported format. Use 'pickle', 'json', or 'csv'.".toList

/-- `serialize_data_dict(data_dict, fmt, base_name)` (lines 163-207).
`fmt` is normalised by `fmt.lower().strip()` first; the csv branch keeps
only the `tstamps` and `samples` columns (`dict.get` with `[]` default)
and pandas raises a `ValueError` when the two columns differ in length;
an unknown format raises the fixed `ValueError` of line 207. -/
def serialize_data_dict (data_dict : PyDict) (fmt : List Char) (base_name : List Char) :
    Except SerErr (Blob × List Char × List Char) :=
  if pyStrip (pyLower fmt) = "pickle".toList then
    .ok (.pickled data_dict, base_name ++ ".pkl".toList, "application/octet-stream".toList)
  else if pyStrip (pyLower fmt) = "json".toList then
    .ok (.utf8 (compactChunk (jsonDumps (.dict (nanToNoneDict data_dict)))),
         base_name ++ ".json".toList, "application/json".toList)
  else if pyStrip (pyLower fmt) = "csv".toList then
    match dictGet data_dict "tstamps".toList (.list .nil),
          dictGet data_dict "samples".toList (.list .nil) with
    | .list t, .list smp =>
      if pyListLen t = pyListLen smp then
        .ok (.csvFrame t smp, base_name ++ ".csv".toList, "text/csv".toList)
      else .error (.valueError "All arrays must be of the same length".toList)
    | _, _ => .error (.valueError "DataFrame constructor not properly called".toList)
  else .error (.valueError unsupportedMsg)

/- ### Claims C8 and C10 -/

lemma toNat_ofNat_valid (n : ℕ) (h : n < 55296) : (Char.ofNat n).toNat = n := by
  have hv : n.isValidChar := Or.inl h
  simp only [Char.ofNat, hv, dif_pos, Char.ofNatAux, Char.toNat]
  rfl

lemma isPySpace_lowerChar (c : Char) : isPySpace (lowerChar c) = isPySpace c := by
  unfold lowerChar
  split
  case isTrue h =>
    have ht : (Char.ofNat (c.toNat + 32)).toNat = c.toNat + 32 :=
      toNat_ofNat_valid _ (by omega)
    have hA : isPySpace (Char.ofNat (c.toNat + 32)) = false := by
      simp only [isPySpace, ht, Bool.or_eq_false_iff, decide_eq_false_iff_not]
      omega
    have hB : isPySpace c = false := by
      simp only [isPySpace, Bool.or_eq_false_iff, decide_eq_false_iff_not]
      omega
    rw [hA, hB]
  case isFalse h => rfl

lemma lowerChar_idem (c : Char) : lowerChar (lowerChar c) = lowerChar c := by
  unfold lowerChar
  split
  case isTrue h =>
    have ht : (Char.ofNat (c.toNat + 32)).toNat = c.toNat + 32 :=
      toNat_ofNat_valid _ (by omega)
    have hnc : ¬ (65 ≤ (Char.ofNat (c.toNat + 32)).toNat
        ∧ (Char.ofNat (c.toNat + 32)).toNat ≤ 90) := by
      simp only [ht]
      omega
    rw [if_neg hnc]
  case isFalse h => rfl

lemma pyLower_idem (s : List Char) : pyLower (pyLower s) = pyLower s := by
  unfold pyLower
  rw [List.map_map]
  exact List.map_congr_left (fun c _ => lowerChar_idem c)

lemma dropWhile_pyLower (s : List Char) :
    (pyLower s).dropWhile isPySpace = pyLower (s.dropWhile isPySpace) := by
  unfold pyLower
  have hp : (isPySpace ∘ lowerChar) = isPySpace := funext isPySpace_lowerChar
  rw [List.dropWhile_map, hp]

lemma rdropWhile_pyLower (s : List Char) :
    (pyLower s).rdropWhile isPySpace = pyLower (s.rdropWhile isPySpace) := by
  unfold List.rdropWhile pyLower
  have hp : (isPySpace ∘ lowerChar) = isPySpace := funext isPySpace_lowerChar
  rw [← List.map_reverse, List.dropWhile_map, hp, ← List.map_reverse]

lemma pyStrip_pyLower_comm (s : List Char) : pyStrip (pyLower s) = pyLower (pyStrip s) := by
  unfold pyStrip
  rw [dropWhile_pyLower, rdropWhile_pyLower]

lemma dropWhile_rdropWhile_dropWhile (s : List Char) :
    ((s.dropWhile isPySpace).rdropWhile isPySpace).dropWhile isPySpace
      = (s.dropWhile isPySpace).rdropWhile isPySpace := by
  set t := s.dropWhile isPySpace with hT
  rw [List.dropWhile_eq_self_iff]
  intro hl
  have hpre : t.rdropWhile isPySpace <+: t := List.rdropWhile_prefix isPySpace t
  have hzero : (t.rdropWhile isPySpace).get ⟨0, hl⟩ = t.get ⟨0, by
      exact lt_of_lt_of_le hl hpre.length_le⟩ := by
    have hg := hpre.getElem hl
    simpa using hg
  rw [hzero]
  have ht : t.dropWhile isPySpace = t := by
    rw [hT]
    exact List.dropWhile_idempotent isPySpace s
  exact (List.dropWhile_eq_self_iff.mp ht) _

lemma pyStrip_idem (s : List Char) : pyStrip (pyStrip s) = pyStrip s := by
  unfold pyStrip
  rw [dropWhile_rdropWhile_dropWhile, List.rdropWhile_idempotent]

lemma pyNorm_idem (s : List Char) :
    pyStrip (pyLower (pyStrip (pyLower s))) = pyStrip (pyLower s) := by
  rw [pyStrip_pyLower_comm (pyStrip (pyLower s)), pyStrip_idem, ← pyStrip_pyLower_comm,
    pyLower_idem]

/-- Claim C8, counterexample: `serialize_data_dict(d, "xml", "x")` does
raise `ValueError` and produces no output, but the fixed message
`Unsupported format. Use pickle, json, or csv.` does not contain the
offending value `xml`, so the error does not name it as claimed. -/
theorem c8_unsupported_counterexample :
    serialize_data_dict .nil "xml".toList "x".toList = .error (.valueError unsupportedMsg)
    ∧ ¬ ("xml".toList <:+: unsupportedMsg) := by
  constructor
  · rfl
  · decide

/-- Claim C8, amended: for every format string whose normalisation is
outside pickle/json/csv, `serialize_data_dict` fails with the fixed
`ValueError` of line 207 (which lists the supported formats but does not
name the offending value), and no bytes, filename or mime type are
produced. -/
theorem c8_unsupported_amended (dd : PyDict) (fmt base_name : List Char)
    (h1 : pyStrip (pyLower fmt) ≠ "pickle".toList)
    (h2 : pyStrip (pyLower fmt) ≠ "json".toList)
    (h3 : pyStrip (pyLower fmt) ≠ "csv".toList) :
    serialize_data_dict dd fmt base_name = .error (.valueError unsupportedMsg) := by
  simp only [serialize_data_dict]
  rw [if_neg h1, if_neg h2, if_neg h3]

/-- Witness for `c8_unsupported_amended` at the format string " XML ". -/
theorem c8_unsupported_amended_witness :
    serialize_data_dict .nil " XML ".toList "x".toList = .error (.valueError unsupportedMsg) :=
  c8_unsupported_amended .nil " XML ".toList "x".toList (by decide) (by decide) (by decide)

/-- Claim C10: `serialize_data_dict` first normalises the format with
`fmt.lower().strip()`, so its result on any format string equals its
result on the normalised string: the format argument is case-insensitive
and whitespace-tolerant; in particular "PICKLE" behaves as "pickle"
(and is accepted) and " Json " behaves as "json". -/
theorem c10_format_normalization (dd : PyDict) (fmt base_name : List Char) :
    serialize_data_dict dd fmt base_name
      = serialize_data_dict dd (pyStrip (pyLower fmt)) base_name
    ∧ serialize_data_dict .nil "PICKLE".toList "d".toList
        = serialize_data_dict .nil "pickle".toList "d".toList
    ∧ serialize_data_dict .nil " Json ".toList "d".toList
        = serialize_data_dict .nil "json".toList "d".toList
    ∧ serialize_data_dict .nil "PICKLE".toList "d".toList
        = .ok (.pickled .nil, "d.pkl".toList, "application/octet-stream".toList) := by
  refine ⟨?_, rfl, rfl, rfl⟩
  simp only [serialize_data_dict, pyNorm_idem]

/- ### Decimal text lemmas -/

lemma digCh_isDigit (d : ℕ) (h : d < 10) : (digCh d).isDigit = true := by
  interval_cases d <;> decide

lemma digCh_toNat (d : ℕ) (h : d < 10) : (digCh d).toNat = 48 + d := by
  interval_cases d <;> decide

lemma natChars_digits (n : ℕ) : ∀ c ∈ natChars n, c.isDigit = true := by
  intro c hc
  unfold natChars at hc
  split at hc
  · simp at hc
    subst hc
    decide
  · simp only [List.mem_map, List.mem_reverse] at hc
    obtain ⟨d, hd, rfl⟩ := hc
    exact digCh_isDigit d (Nat.digits_lt_base (by norm_num) hd)

lemma digitRunVal_from (a : ℕ) (l : List Char) :
    l.foldl (fun x c => 10 * x + (c.toNat - 48)) a
      = a * 10 ^ l.length + digitRunVal l := by
  induction l generalizing a with
  | nil => simp [digitRunVal]
  | cons c t ih =>
    unfold digitRunVal
    simp only [List.foldl_cons, List.length_cons]
    rw [ih, ih (10 * 0 + (c.toNat - 48))]
    ring

lemma digitRunVal_append (xs ys : List Char) :
    digitRunVal (xs ++ ys) = digitRunVal xs * 10 ^ ys.length + digitRunVal ys := by
  unfold digitRunVal
  rw [List.foldl_append]
  exact digitRunVal_from _ ys

lemma digitRunVal_natChars (n : ℕ) : digitRunVal (natChars n) = n := by
  unfold natChars
  split
  case isTrue h => subst h; decide
  case isFalse h =>
    have key : ∀ ds : List ℕ, (∀ d ∈ ds, d < 10) →
        digitRunVal (ds.reverse.map digCh) = Nat.ofDigits 10 ds := by
      intro ds hds
      induction ds with
      | nil => simp [digitRunVal, Nat.ofDigits]
      | cons d t ih =>
        simp only [List.reverse_cons, List.map_append, List.map_cons, List.map_nil]
        rw [digitRunVal_append]
        have hd : d < 10 := hds d (by simp)
        have : digitRunVal [digCh d] = d := by
          simp [digitRunVal, digCh_toNat d hd]
        rw [this, ih (fun x hx => hds x (by simp [hx]))]
        simp [Nat.ofDigits_cons, List.length_map, List.length_reverse]
        ring
    rw [key _ (fun d hd => Nat.digits_lt_base (by norm_num) hd), Nat.ofDigits_digits]

lemma digitRunVal_replicate_zero (z : ℕ) (ds : List Char) :
    digitRunVal (List.replicate z '0' ++ ds) = digitRunVal ds := by
  rw [digitRunVal_append]
  have h0 : digitRunVal (List.replicate z '0') = 0 := by
    induction z with
    | zero => rfl
    | succ m ih =>
      rw [List.replicate_succ]
      have : digitRunVal ('0' :: List.replicate m '0')
          = (0 : ℕ) * 10 ^ m + digitRunVal (List.replicate m '0') := by
        unfold digitRunVal
        simp only [List.foldl_cons]
        rw [digitRunVal_from]
        simp [List.length_replicate]
        rfl
      rw [this, ih]
      simp
  rw [h0]
  simp

/- ### A JSON reader for the serialized Merged Series

The claim that parsing the compacted output recovers the sanitized
series is settled against this executable reader: it understands exactly
the grammar the compact encoder produces for a Merged Series (an object
with the three keys, arrays of numbers and nulls, arbitrary blank
interleaving). -/

inductive JElem where
  | num (q : ℚ)
  | null
deriving DecidableEq

def skipWs (s : List Char) : List Char := s.dropWhile (fun c => c = ' ' || c = '\n')

def parseNumMag (s : List Char) : Option (ℚ × List Char) :=
  let ds := s.takeWhile Char.isDigit
  let r := s.dropWhile Char.isDigit
  if ds = [] then none
  else
    match r with
    | '.' :: r2 =>
      let fs := r2.takeWhile Char.isDigit
      let r3 := r2.dropWhile Char.isDigit
      if fs = [] then none
      else some ((digitRunVal ds : ℚ) + (digitRunVal fs : ℚ) / 10 ^ fs.length, r3)
    | _ => some ((digitRunVal ds : ℚ), r)

def parseElem (s : List Char) : Option (JElem × List Char) :=
  if "null".toList.isPrefixOf s then some (.null, s.drop 4)
  else
    match s with
    | '-' :: r => (parseNumMag r).map (fun p => (JElem.num (-p.1), p.2))
    | _ => (parseNumMag s).map (fun p => (JElem.num p.1, p.2))

def parseItems : ℕ → List Char → Option (List JElem × List Char)
  | 0, _ => none
  | fuel + 1, s =>
    match parseElem (skipWs s) with
    | none => none
    | some (e, r) =>
      match skipWs r with
      | c :: r2 =>
        if c = ',' then
          match parseItems fuel r2 with
          | some (es, r3) => some (e :: es, r3)
          | none => none
        else if c = ']' then some ([e], r2)
        else none
      | [] => none

def parseArr (fuel : ℕ) (s : List Char) : Option (List JElem × List Char) :=
  match skipWs s with
  | c :: r =>
    if c = '[' then
      match skipWs r with
      | c2 :: r2 => if c2 = ']' then some ([], r2) else parseItems fuel (c2 :: r2)
      | [] => none
    else none
  | [] => none

def expectLit (lit s : List Char) : Option (List Char) :=
  if lit.isPrefixOf s then some (s.drop lit.length) else none

def parseKeyArr (fuel : ℕ) (key : List Char) (s : List Char) : Option (List JElem × List Char) :=
  match expectLit ('"' :: (key ++ ['"'])) (skipWs s) with
  | none => none
  | some r1 =>
    match skipWs r1 with
    | c :: r2 => if c = ':' then parseArr fuel r2 else none
    | [] => none

def parseSeries (s : List Char) : Option (List JElem × List JElem × List JElem) :=
  match skipWs s with
  | c0 :: r0 =>
    if c0 = '\x7b' then
      match parseKeyArr (r0.length + 1) "fs".toList r0 with
      | none => none
      | some (a, r1) =>
        match skipWs r1 with
        | c1 :: r2 =>
          if c1 = ',' then
            match parseKeyArr (r2.length + 1) "samples".toList r2 with
            | none => none
            | some (b, r3) =>
              match skipWs r3 with
              | c3 :: r4 =>
                if c3 = ',' then
                  match parseKeyArr (r4.length + 1) "tstamps".toList r4 with
                  | none => none
                  | some (c, r5) =>
                    match skipWs r5 with
                    | c5 :: r6 =>
                      if c5 = '\x7d' then (if skipWs r6 = [] then some (a, b, c) else none)
                      else none
                    | [] => none
                else none
              | [] => none
          else none
        | [] => none
    else none
  | [] => none

/- ### Parsing lemmas -/

def headNotDigit (r : List Char) : Prop := ∀ c, r.head? = some c → c.isDigit = false

lemma span_digits (ds r : List Char) (hds : ∀ c ∈ ds, c.isDigit = true)
    (hr : headNotDigit r) :
    (ds ++ r).takeWhile Char.isDigit = ds ∧ (ds ++ r).dropWhile Char.isDigit = r := by
  induction ds with
  | nil =>
    simp only [List.nil_append]
    cases r with
    | nil => simp
    | cons c t =>
      have hc : c.isDigit = false := hr c rfl
      constructor
      · simp [List.takeWhile_cons, hc]
      · simp [List.dropWhile_cons, hc]
  | cons d t ih =>
    have hd : d.isDigit = true := hds d (by simp)
    obtain ⟨ih1, ih2⟩ := ih (fun c hc => hds c (by simp [hc]))
    constructor
    · simp [List.takeWhile_cons, hd, ih1]
    · simp [List.dropWhile_cons, hd, ih2]

lemma natChars_ne_nil (n : ℕ) : natChars n ≠ [] := by
  unfold natChars
  split
  · simp
  case isFalse h =>
    have h2 : Nat.digits 10 n ≠ [] := Nat.digits_ne_nil_iff_ne_zero.mpr h
    simp only [ne_eq, List.map_eq_nil_iff, List.reverse_eq_nil_iff]
    exact h2

lemma parseNumMag_nat (n : ℕ) (r : List Char) (hr : headNotDigit r)
    (hdot : r.head? ≠ some '.') :
    parseNumMag (natChars n ++ r) = some ((n : ℚ), r) := by
  obtain ⟨h1, h2⟩ := span_digits (natChars n) r (natChars_digits n) hr
  unfold parseNumMag
  simp only [h1, h2, if_neg (natChars_ne_nil n)]
  split
  next r2 =>
    exact absurd rfl hdot
  next =>
    simp [digitRunVal_natChars]

def magChars (a k : ℕ) : List Char :=
  let ds0 := natChars a
  let ds := if ds0.length ≤ k then List.replicate (k + 1 - ds0.length) '0' ++ ds0 else ds0
  ds.take (ds.length - k) ++ '.' :: (if k = 0 then ['0'] else ds.drop (ds.length - k))

lemma decimalOf_eq_magChars (m : ℤ) (k : ℕ) :
    decimalOf m k = (if m < 0 then ['-'] else []) ++ magChars m.natAbs k := by
  simp only [decimalOf, magChars, List.append_assoc]

lemma parseNumMag_mag (a k : ℕ) (r : List Char) (hr : headNotDigit r) :
    parseNumMag (magChars a k ++ r) = some ((a : ℚ) / 10 ^ k, r) := by
  unfold magChars
  set ds0 := natChars a with hds0
  set ds : List Char :=
    if ds0.length ≤ k then List.replicate (k + 1 - ds0.length) '0' ++ ds0 else ds0 with hds
  have dsDig : ∀ c ∈ ds, c.isDigit = true := by
    intro c hc
    rw [hds] at hc
    split at hc
    · rcases List.mem_append.mp hc with h | h
      · rw [List.eq_of_mem_replicate h]
        decide
      · exact natChars_digits a c h
    · exact natChars_digits a c hc
  have dsVal : digitRunVal ds = a := by
    rw [hds]
    split
    · rw [digitRunVal_replicate_zero, hds0, digitRunVal_natChars]
    · rw [hds0, digitRunVal_natChars]
  have ds0pos : 0 < ds0.length := List.length_pos.mpr (natChars_ne_nil a)
  have dsLen : k < ds.length := by
    rw [hds]
    split
    · rw [List.length_append, List.length_replicate]
      omega
    · omega
  set ip := ds.take (ds.length - k) with hip
  set fp : List Char := if k = 0 then ['0'] else ds.drop (ds.length - k) with hfp
  have ipDig : ∀ c ∈ ip, c.isDigit = true := fun c hc => dsDig c (List.mem_of_mem_take hc)
  have ipLen : ip.length = ds.length - k := by
    rw [hip, List.length_take]
    omega
  have ipNe : ip ≠ [] := by
    intro h
    rw [h] at ipLen
    simp at ipLen
    omega
  have fpDig : ∀ c ∈ fp, c.isDigit = true := by
    intro c hc
    rw [hfp] at hc
    split at hc
    · simp at hc
      rw [hc]
      decide
    · exact dsDig c (List.mem_of_mem_drop hc)
  have fpNe : fp ≠ [] := by
    rw [hfp]
    split
    · simp
    · intro h
      rw [List.drop_eq_nil_iff] at h
      omega
  have assoc : ip ++ '.' :: fp ++ r = ip ++ '.' :: (fp ++ r) := by
    simp
  rw [assoc]
  have hdotr : headNotDigit ('.' :: (fp ++ r)) := by
    intro c hc
    simp [List.head?] at hc
    rw [← hc]
    decide
  obtain ⟨h1, h2⟩ := span_digits ip ('.' :: (fp ++ r)) ipDig hdotr
  obtain ⟨h3, h4⟩ := span_digits fp r fpDig hr
  unfold parseNumMag
  simp only [h1, h2, if_neg ipNe]
  split
  next hfsnil =>
    rw [h3] at hfsnil
    exact absurd hfsnil fpNe
  next =>
    rw [h3, h4]
    have goal_eq : (digitRunVal ip : ℚ) + (digitRunVal fp : ℚ) / 10 ^ fp.length
        = (a : ℚ) / 10 ^ k := by
      rcases Nat.eq_zero_or_pos k with hk | hk
      · subst hk
        have hfp0 : fp = ['0'] := by simp [hfp]
        have hipds : ip = ds := by
          rw [hip]
          simp [List.take_length]
        rw [hfp0, hipds, dsVal]
        norm_num [digitRunVal]
        decide
      · have hfpk : fp = ds.drop (ds.length - k) := by
          rw [hfp, if_neg (by omega)]
        have hsplit : ds = ip ++ fp := by
          rw [hip, hfpk, List.take_append_drop]
        have fpLen : fp.length = k := by
          rw [hfpk, List.length_drop]
          omega
        have hval : digitRunVal ip * 10 ^ k + digitRunVal fp = a := by
          rw [← fpLen, ← digitRunVal_append, ← hsplit, dsVal]
        rw [fpLen]
        have h10 : (10 : ℚ) ^ k ≠ 0 := by positivity
        field_simp
        push_cast [← hval]
        ring
    rw [goal_eq]

lemma isDigit_toNat_range (c : Char) (h : c.isDigit = true) : 48 ≤ c.toNat ∧ c.toNat ≤ 57 := by
  simp only [Char.isDigit, Bool.and_eq_true, decide_eq_true_eq] at h
  exact h

lemma ne_of_toNat_ne (c d : Char) (h : c.toNat ≠ d.toNat) : c ≠ d := by
  intro he
  exact h (by rw [he])

lemma nullLit_not_lead (c : Char) (hc : c ≠ 'n') (s : List Char) :
    "null".toList.isPrefixOf (c :: s) = false := by
  show List.isPrefixOf ('n' :: "ull".toList) (c :: s) = false
  simp only [List.isPrefixOf, Bool.and_eq_false_iff]
  left
  simp only [beq_eq_false_iff_ne, ne_eq]
  intro he
  exact hc he.symm

lemma parseElem_num (s : List Char) (h1 : "null".toList.isPrefixOf s = false)
    (h2 : s.head? ≠ some '-') :
    parseElem s = (parseNumMag s).map (fun p => (JElem.num p.1, p.2)) := by
  unfold parseElem
  rw [h1]
  simp only [Bool.false_eq_true, if_false]
  split
  next r => exact absurd rfl h2
  next => rfl

def isDyadic (q : ℚ) : Bool := q.den = 2 ^ twoAdic q.den

lemma dyadic_dvd (q : ℚ) (h : isDyadic q = true) :
    q.den ∣ 10 ^ max (twoAdic q.den) (fiveAdic q.den) := by
  have hd : q.den = 2 ^ twoAdic q.den := by simpa [isDyadic] using h
  calc q.den = 2 ^ twoAdic q.den := hd
    _ ∣ 10 ^ twoAdic q.den := pow_dvd_pow_of_dvd (by norm_num) _
    _ ∣ 10 ^ max (twoAdic q.den) (fiveAdic q.den) := pow_dvd_pow 10 (le_max_left _ _)

lemma magChars_head_digit (a k : ℕ) :
    ∃ c, (magChars a k).head? = some c ∧ c.isDigit = true := by
  unfold magChars
  set ds0 := natChars a with hds0
  set ds : List Char :=
    if ds0.length ≤ k then List.replicate (k + 1 - ds0.length) '0' ++ ds0 else ds0 with hds
  have dsDig : ∀ c ∈ ds, c.isDigit = true := by
    intro c hc
    rw [hds] at hc
    split at hc
    · rcases List.mem_append.mp hc with h | h
      · rw [List.eq_of_mem_replicate h]
        decide
      · exact natChars_digits a c h
    · exact natChars_digits a c hc
  have ds0pos : 0 < ds0.length := List.length_pos.mpr (natChars_ne_nil a)
  have dsLen : k < ds.length := by
    rw [hds]
    split
    · rw [List.length_append, List.length_replicate]
      omega
    · omega
  have ipNe : ds.take (ds.length - k) ≠ [] := by
    intro h
    have := congrArg List.length h
    rw [List.length_take] at this
    simp at this
    omega
  obtain ⟨c, t, hct⟩ := List.exists_cons_of_ne_nil ipNe
  refine ⟨c, ?_, ?_⟩
  · rw [List.head?_append_of_ne_nil _ ipNe, hct]
    rfl
  · apply dsDig
    apply List.mem_of_mem_take
    rw [hct]
    exact List.mem_cons_self c t

lemma mag_value (q : ℚ) (h : q.den ∣ 10 ^ max (twoAdic q.den) (fiveAdic q.den)) :
    ((q.num * ((10 ^ max (twoAdic q.den) (fiveAdic q.den) / q.den : ℕ) : ℤ)).natAbs : ℚ)
        / 10 ^ max (twoAdic q.den) (fiveAdic q.den)
      = if q.num * ((10 ^ max (twoAdic q.den) (fiveAdic q.den) / q.den : ℕ) : ℤ) < 0
        then -q else q := by
  set k := max (twoAdic q.den) (fiveAdic q.den) with hk
  set c : ℤ := ((10 ^ k / q.den : ℕ) : ℤ) with hc
  have hdenpos : 0 < q.den := q.pos
  have hcpos : 0 < c := by
    rw [hc]
    have h1 : 0 < 10 ^ k / q.den := Nat.div_pos (Nat.le_of_dvd (by positivity) h) hdenpos
    exact_mod_cast h1
  have hkey : (c : ℚ) * q.den = 10 ^ k := by
    rw [hc]
    push_cast
    have h2 : (10 ^ k / q.den) * q.den = 10 ^ k := Nat.div_mul_cancel h
    exact_mod_cast h2
  have hc0 : (c : ℚ) ≠ 0 := by
    have h3 : (0 : ℚ) < (c : ℚ) := by exact_mod_cast hcpos
    exact h3.ne.symm
  have hden : (q.den : ℚ) ≠ 0 := by
    exact_mod_cast hdenpos.ne.symm
  have hq : ((q.num : ℚ) * (c : ℚ)) / 10 ^ k = q := by
    rw [← hkey, mul_comm (c : ℚ) (q.den : ℚ), mul_div_mul_right _ _ hc0]
    exact Rat.num_div_den q
  split
  next hlt =>
    have habs : (((q.num * c).natAbs : ℕ) : ℚ) = -((q.num : ℚ) * c) := by
      rw [Int.cast_natAbs]
      push_cast [abs_of_neg hlt]
      ring
    rw [habs, neg_div, hq]
  next hge =>
    have hge2 : 0 ≤ q.num * c := not_lt.mp hge
    have habs : (((q.num * c).natAbs : ℕ) : ℚ) = (q.num : ℚ) * c := by
      rw [Int.cast_natAbs]
      push_cast [abs_of_nonneg hge2]
      ring
    rw [habs, hq]

lemma parseElem_minus (s : List Char) :
    parseElem ('-' :: s) = (parseNumMag s).map (fun p => (JElem.num (-p.1), p.2)) := by
  unfold parseElem
  rw [nullLit_not_lead '-' (by decide) s]
  simp only [Bool.false_eq_true, if_false]

lemma parseElem_null_lit (r : List Char) :
    parseElem ("null".toList ++ r) = some (.null, r) := by
  unfold parseElem
  rw [if_pos (List.isPrefixOf_iff_prefix.mpr (List.prefix_append _ r))]
  have h4 : ("null".toList).length = 4 := rfl
  rw [← h4, List.drop_left]

lemma parseElem_intChars (n : ℤ) (r : List Char) (hr : headNotDigit r)
    (hdot : r.head? ≠ some '.') :
    parseElem (intChars n ++ r) = some (.num (n : ℚ), r) := by
  unfold intChars
  split
  next hneg =>
    rw [List.cons_append, parseElem_minus, parseNumMag_nat _ _ hr hdot]
    simp only [Option.map_some']
    congr 2
    have : ((n.natAbs : ℕ) : ℚ) = -(n : ℚ) := by
      rw [Int.cast_natAbs]
      push_cast [abs_of_neg hneg]
      ring
    rw [this]
    ring_nf
  next hge =>
    have hge2 : 0 ≤ n := not_lt.mp hge
    obtain ⟨c, t, hct⟩ := List.exists_cons_of_ne_nil (natChars_ne_nil n.natAbs)
    have hcdig : c.isDigit = true := by
      apply natChars_digits n.natAbs
      rw [hct]
      exact List.mem_cons_self c t
    obtain ⟨h48, h57⟩ := isDigit_toNat_range c hcdig
    have hne_n : c ≠ 'n' := ne_of_toNat_ne c 'n' (by
      rw [show ('n').toNat = 110 from rfl]
      omega)
    have hne_m : ((natChars n.natAbs ++ r).head? ≠ some '-') := by
      rw [hct]
      intro he
      simp at he
      have : c.toNat = 45 := by rw [he]; rfl
      omega
    have hpr : "null".toList.isPrefixOf (natChars n.natAbs ++ r) = false := by
      rw [hct]
      exact nullLit_not_lead c hne_n _
    rw [parseElem_num _ hpr hne_m, parseNumMag_nat _ _ hr hdot]
    simp only [Option.map_some']
    have hcast : ((n.natAbs : ℕ) : ℚ) = (n : ℚ) := by
      rw [Int.cast_natAbs, abs_of_nonneg hge2]
    rw [hcast]

lemma parseElem_qChars (q : ℚ) (hdy : isDyadic q = true) (r : List Char)
    (hr : headNotDigit r) :
    parseElem (qChars q ++ r) = some (.num q, r) := by
  have hdvd := dyadic_dvd q hdy
  unfold qChars
  rw [if_pos hdvd, decimalOf_eq_magChars]
  set k := max (twoAdic q.den) (fiveAdic q.den) with hk
  set m : ℤ := q.num * ((10 ^ k / q.den : ℕ) : ℤ) with hm
  have hmv := mag_value q hdvd
  rw [← hk, ← hm] at hmv
  split
  next hneg =>
    rw [if_pos hneg] at hmv
    rw [List.singleton_append, List.cons_append, parseElem_minus,
      parseNumMag_mag _ _ _ hr]
    simp only [Option.map_some']
    rw [hmv]
    simp
  next hge =>
    rw [if_neg hge] at hmv
    rw [List.nil_append]
    obtain ⟨c, hc1, hc2⟩ := magChars_head_digit m.natAbs k
    have hmagne : magChars m.natAbs k ≠ [] := by
      intro h
      rw [h] at hc1
      simp at hc1
    obtain ⟨h48, h57⟩ := isDigit_toNat_range c hc2
    have hne_n : c ≠ 'n' := ne_of_toNat_ne c 'n' (by
      rw [show ('n').toNat = 110 from rfl]
      omega)
    have hhead : (magChars m.natAbs k ++ r).head? = some c := by
      rw [List.head?_append_of_ne_nil _ hmagne, hc1]
    have hpr : "null".toList.isPrefixOf (magChars m.natAbs k ++ r) = false := by
      obtain ⟨t, ht⟩ := List.exists_cons_of_ne_nil hmagne
      obtain ⟨t2, ht2⟩ := ht
      rw [ht2, List.cons_append]
      have : t = c := by
        rw [ht2] at hc1
        simpa using hc1
      rw [this]
      exact nullLit_not_lead c hne_n _
    have hne_m : (magChars m.natAbs k ++ r).head? ≠ some '-' := by
      rw [hhead]
      intro he
      simp at he
      have h45 : c.toNat = 45 := by rw [he]; rfl
      omega
    rw [parseElem_num _ hpr hne_m, parseNumMag_mag _ _ _ hr]
    simp only [Option.map_some']
    rw [hmv]

def sanElem : PyVal → Bool
  | .int _ => true
  | .float (.fin q) => isDyadic q
  | .none => true
  | _ => false

def elemJ : PyVal → JElem
  | .int n => .num (n : ℚ)
  | .float (.fin q) => .num q
  | _ => .null

lemma parseElem_emitted (v : PyVal) (hv : sanElem v = true) (lvl : ℕ) (r : List Char)
    (hr : headNotDigit r) (hdot : r.head? ≠ some '.') :
    parseElem (emitVal lvl v ++ r) = some (elemJ v, r) := by
  cases v with
  | int n =>
    have he : emitVal lvl (.int n) = intChars n := by simp [emitVal]
    rw [he, parseElem_intChars n r hr hdot]
    rfl
  | float f =>
    cases f with
    | fin q =>
      have he : emitVal lvl (.float (.fin q)) = qChars q := by simp [emitVal, floatChars]
      have hdy : isDyadic q = true := by simpa [sanElem] using hv
      rw [he, parseElem_qChars q hdy r hr]
      rfl
    | nan => simp [sanElem] at hv
    | inf => simp [sanElem] at hv
    | ninf => simp [sanElem] at hv
  | none =>
    have he : emitVal lvl PyVal.none = "null".toList := by simp [emitVal]
    rw [he, parseElem_null_lit]
    rfl
  | str s => simp [sanElem] at hv
  | bool b => simp [sanElem] at hv
  | list l => simp [sanElem] at hv
  | dict d => simp [sanElem] at hv

def allSan : PyList → Bool
  | .nil => true
  | .cons v t => sanElem v && allSan t

def jList : PyList → List JElem
  | .nil => []
  | .cons v t => elemJ v :: jList t

def cItems : PyVal → PyList → List Char
  | v, .nil => emitVal 2 v
  | v, .cons w t => emitVal 2 v ++ ',' :: ' ' :: cItems w t

def cArr : PyList → List Char
  | .nil => "[]".toList
  | .cons v t => '[' :: ' ' :: (cItems v t ++ [']'])

lemma skipWs_cons_notws (c : Char) (h1 : c ≠ ' ') (h2 : c ≠ '\n') (s : List Char) :
    skipWs (c :: s) = c :: s := by
  simp [skipWs, List.dropWhile_cons, h1, h2]

lemma skipWs_append_spaces (pre : List Char) (h : ∀ c ∈ pre, c = ' ' ∨ c = '\n') (s : List Char) :
    skipWs (pre ++ s) = skipWs s := by
  induction pre with
  | nil => simp
  | cons c t ih =>
    have hc := h c (by simp)
    rcases hc with hc | hc <;>
      · subst hc
        rw [List.cons_append]
        simp only [skipWs, List.dropWhile_cons]
        norm_num
        exact ih (fun x hx => h x (by simp [hx]))

lemma emitVal_head (v : PyVal) (hv : sanElem v = true) (lvl : ℕ) :
    ∃ c s2, emitVal lvl v = c :: s2 ∧ (c = '-' ∨ c = 'n' ∨ c.isDigit = true) := by
  cases v with
  | int n =>
    have he : emitVal lvl (.int n) = intChars n := by simp [emitVal]
    rw [he]
    unfold intChars
    split
    · exact ⟨'-', _, rfl, Or.inl rfl⟩
    · obtain ⟨c, t, hct⟩ := List.exists_cons_of_ne_nil (natChars_ne_nil n.natAbs)
      refine ⟨c, t, hct, Or.inr (Or.inr ?_)⟩
      apply natChars_digits n.natAbs
      rw [hct]
      exact List.mem_cons_self c t
  | float f =>
    cases f with
    | fin q =>
      have he : emitVal lvl (.float (.fin q)) = qChars q := by simp [emitVal, floatChars]
      have hdy : isDyadic q = true := by simpa [sanElem] using hv
      rw [he]
      unfold qChars
      rw [if_pos (dyadic_dvd q hdy), decimalOf_eq_magChars]
      split
      · exact ⟨'-', _, rfl, Or.inl rfl⟩
      · rw [List.nil_append]
        set aN := (q.num * ((10 ^ max (twoAdic q.den) (fiveAdic q.den) / q.den : ℕ) : ℤ)).natAbs
          with haN
        set kN := max (twoAdic q.den) (fiveAdic q.den) with hkN
        obtain ⟨c, hc1, hc2⟩ := magChars_head_digit aN kN
        have hne : magChars aN kN ≠ [] := by
          intro h
          rw [h] at hc1
          simp at hc1
        obtain ⟨c2, t, hct⟩ := List.exists_cons_of_ne_nil hne
        rw [hct] at hc1
        simp only [List.head?_cons, Option.some_inj] at hc1
        subst hc1
        exact ⟨c2, t, hct, Or.inr (Or.inr hc2)⟩
    | nan => simp [sanElem] at hv
    | inf => simp [sanElem] at hv
    | ninf => simp [sanElem] at hv
  | none =>
    have he : emitVal lvl PyVal.none = 'n' :: ['u', 'l', 'l'] := by simp [emitVal]
    exact ⟨'n', ['u', 'l', 'l'], he, Or.inr (Or.inl rfl)⟩
  | str s => simp [sanElem] at hv
  | bool b => simp [sanElem] at hv
  | list l => simp [sanElem] at hv
  | dict d => simp [sanElem] at hv

lemma head_kind_notws (c : Char) (h : c = '-' ∨ c = 'n' ∨ c.isDigit = true) :
    c ≠ ' ' ∧ c ≠ '\n' ∧ c ≠ ']' := by
  rcases h with h | h | h
  · subst h
    refine ⟨by decide, by decide, by decide⟩
  · subst h
    refine ⟨by decide, by decide, by decide⟩
  · obtain ⟨h1, h2⟩ := isDigit_toNat_range c h
    refine ⟨ne_of_toNat_ne c ' ' ?_, ne_of_toNat_ne c '\n' ?_, ne_of_toNat_ne c ']' ?_⟩
    · rw [show (' ').toNat = 32 from rfl]
      omega
    · rw [show ('\n').toNat = 10 from rfl]
      omega
    · rw [show (']').toNat = 93 from rfl]
      omega

lemma parseItems_round : ∀ (t : PyList) (v : PyVal) (pre rest : List Char) (fuel : ℕ),
    sanElem v = true → allSan t = true → (∀ c ∈ pre, c = ' ') → pyListLen t < fuel →
    parseItems fuel (pre ++ (cItems v t ++ ']' :: rest)) = some (elemJ v :: jList t, rest)
  | .nil, v, pre, rest, fuel => fun hv _ hpre hfuel => by
    obtain ⟨fuel2, rfl⟩ : ∃ f2, fuel = f2 + 1 := ⟨fuel - 1, by omega⟩
    obtain ⟨c, s2, hcs, hkind⟩ := emitVal_head v hv 2
    obtain ⟨hws1, hws2, hbr⟩ := head_kind_notws c hkind
    unfold parseItems
    rw [skipWs_append_spaces pre (fun x hx => Or.inl (hpre x hx))]
    have hshape : cItems v PyList.nil ++ ']' :: rest = emitVal 2 v ++ ']' :: rest := by
      simp [cItems]
    rw [hshape, hcs, List.cons_append, skipWs_cons_notws c hws1 hws2, ← List.cons_append,
      ← hcs, parseElem_emitted v hv 2 (']' :: rest) (by
        intro x hx
        simp at hx
        rw [← hx]
        decide) (by
        intro hx
        simp at hx)]
    dsimp only
    rw [skipWs_cons_notws ']' (by decide) (by decide)]
    simp [jList]
  | .cons w t2, v, pre, rest, fuel => fun hv hall hpre hfuel => by
    obtain ⟨fuel2, rfl⟩ : ∃ f2, fuel = f2 + 1 := ⟨fuel - 1, by omega⟩
    have hw : sanElem w = true := by
      have h2 := hall
      simp [allSan, Bool.and_eq_true] at h2
      exact h2.1
    have ht2 : allSan t2 = true := by
      have h2 := hall
      simp [allSan, Bool.and_eq_true] at h2
      exact h2.2
    obtain ⟨c, s2, hcs, hkind⟩ := emitVal_head v hv 2
    obtain ⟨hws1, hws2, hbr⟩ := head_kind_notws c hkind
    unfold parseItems
    rw [skipWs_append_spaces pre (fun x hx => Or.inl (hpre x hx))]
    have hshape : cItems v (PyList.cons w t2) ++ ']' :: rest
        = emitVal 2 v ++ (',' :: ' ' :: (cItems w t2 ++ ']' :: rest)) := by
      simp [cItems]
    rw [hshape, hcs, List.cons_append, skipWs_cons_notws c hws1 hws2, ← List.cons_append,
      ← hcs, parseElem_emitted v hv 2 _ (by
        intro x hx
        simp at hx
        rw [← hx]
        decide) (by
        intro hx
        simp at hx)]
    dsimp only
    rw [skipWs_cons_notws ',' (by decide) (by decide)]
    have hfl : pyListLen t2 < fuel2 := by
      simp [pyListLen] at hfuel
      omega
    have hrec := parseItems_round t2 w [' '] rest fuel2 hw ht2 (by
      intro x hx
      simpa using hx) hfl
    rw [show (' ' :: (cItems w t2 ++ ']' :: rest)) = [' '] ++ (cItems w t2 ++ ']' :: rest)
      from rfl]
    dsimp only
    rw [hrec]
    simp [jList]

lemma parseArr_round (l : PyList) (pre rest : List Char) (fuel : ℕ)
    (hall : allSan l = true) (hpre : ∀ c ∈ pre, c = ' ' ∨ c = '\n')
    (hfuel : pyListLen l < fuel) :
    parseArr fuel (pre ++ (cArr l ++ rest)) = some (jList l, rest) := by
  unfold parseArr
  rw [skipWs_append_spaces pre hpre]
  cases l with
  | nil =>
    have hshape : cArr PyList.nil ++ rest = '[' :: (']' :: rest) := by simp [cArr]
    rw [hshape, skipWs_cons_notws '[' (by decide) (by decide)]
    dsimp only
    rw [if_pos rfl, skipWs_cons_notws ']' (by decide) (by decide)]
    simp [jList]
  | cons v t =>
    have hv : sanElem v = true := by
      have h2 := hall
      simp [allSan, Bool.and_eq_true] at h2
      exact h2.1
    have ht : allSan t = true := by
      have h2 := hall
      simp [allSan, Bool.and_eq_true] at h2
      exact h2.2
    obtain ⟨c, s2, hcs, hkind⟩ := emitVal_head v hv 2
    obtain ⟨hws1, hws2, hbr⟩ := head_kind_notws c hkind
    have hshape : cArr (PyList.cons v t) ++ rest
        = '[' :: (' ' :: (cItems v t ++ ']' :: rest)) := by
      simp [cArr]
    rw [hshape, skipWs_cons_notws '[' (by decide) (by decide)]
    dsimp only
    rw [if_pos rfl]
    have hhead : ∃ s3, cItems v t ++ ']' :: rest = c :: s3 := by
      cases t with
      | nil =>
        refine ⟨s2 ++ ']' :: rest, ?_⟩
        simp [cItems, hcs]
      | cons w t2 =>
        refine ⟨s2 ++ ',' :: ' ' :: cItems w t2 ++ ']' :: rest, ?_⟩
        simp [cItems, hcs]
    obtain ⟨s3, hs3⟩ := hhead
    have hsw : skipWs (' ' :: (cItems v t ++ ']' :: rest)) = c :: s3 := by
      have h1 : skipWs (' ' :: (cItems v t ++ ']' :: rest))
          = skipWs (cItems v t ++ ']' :: rest) := by
        rw [show (' ' :: (cItems v t ++ ']' :: rest))
            = [' '] ++ (cItems v t ++ ']' :: rest) from rfl]
        exact skipWs_append_spaces [' '] (by intro x hx; simp at hx; simp [hx]) _
      rw [h1, hs3, skipWs_cons_notws c hws1 hws2]
    rw [hsw]
    dsimp only
    rw [if_neg hbr, ← hs3]
    have := parseItems_round t v [] rest fuel hv ht (by intro x hx; simp at hx) (by
      simp [pyListLen] at hfuel ⊢
      omega)
    rw [List.nil_append] at this
    rw [this]
    simp [jList]

lemma expectLit_append (lit r : List Char) : expectLit lit (lit ++ r) = some r := by
  unfold expectLit
  rw [if_pos (List.isPrefixOf_iff_prefix.mpr (List.prefix_append _ _)), List.drop_left]

lemma parseKeyArr_round (key : List Char) (l : PyList) (pre rest : List Char) (fuel : ℕ)
    (hall : allSan l = true) (hpre : ∀ x ∈ pre, x = ' ' ∨ x = '\n')
    (hfuel : pyListLen l < fuel) :
    parseKeyArr fuel key (pre ++ ('"' :: (key ++ '"' :: ':' :: ' ' :: (cArr l ++ rest))))
      = some (jList l, rest) := by
  unfold parseKeyArr
  rw [skipWs_append_spaces pre hpre, skipWs_cons_notws '"' (by decide) (by decide)]
  have hsh : '"' :: (key ++ '"' :: ':' :: ' ' :: (cArr l ++ rest))
      = ('"' :: (key ++ ['"'])) ++ (':' :: ' ' :: (cArr l ++ rest)) := by
    simp
  rw [hsh, expectLit_append]
  dsimp only
  rw [skipWs_cons_notws ':' (by decide) (by decide)]
  dsimp only
  rw [if_pos rfl]
  have h1 := parseArr_round l [' '] rest fuel hall (by
    intro x hx
    simp at hx
    simp [hx]) hfuel
  rw [show (' ' :: (cArr l ++ rest)) = [' '] ++ (cArr l ++ rest) from rfl]
  exact h1

lemma cItems_len (t : PyList) : ∀ (v : PyVal), sanElem v = true → allSan t = true →
    pyListLen t + 1 ≤ (cItems v t).length
  | v => fun hv hall => by
    cases t with
    | nil =>
      obtain ⟨c, s2, hcs, _⟩ := emitVal_head v hv 2
      simp [cItems, hcs, pyListLen]
    | cons w t2 =>
      have hw : sanElem w = true := by
        simp [allSan, Bool.and_eq_true] at hall
        exact hall.1
      have ht2 : allSan t2 = true := by
        simp [allSan, Bool.and_eq_true] at hall
        exact hall.2
      have hrec := cItems_len t2 w hw ht2
      simp only [cItems, pyListLen, List.length_append, List.length_cons]
      omega

lemma cArr_len (l : PyList) (hall : allSan l = true) : pyListLen l ≤ (cArr l).length := by
  cases l with
  | nil => simp [cArr, pyListLen]
  | cons v t =>
    have hv : sanElem v = true := by
      simp [allSan, Bool.and_eq_true] at hall
      exact hall.1
    have ht : allSan t = true := by
      simp [allSan, Bool.and_eq_true] at hall
      exact hall.2
    have h1 := cItems_len t v hv ht
    simp only [cArr, pyListLen, List.length_cons, List.length_append]
    omega

def cSeries (a b c : PyList) : List Char :=
  '\x7b' :: ('\n' :: ' ' :: ' ' :: '"' :: ("fs".toList ++ '"' :: ':' :: ' ' :: (cArr a ++ ',' :: '\n' :: ' ' :: ' ' :: '"' :: ("samples".toList ++ '"' :: ':' :: ' ' :: (cArr b ++ ',' :: '\n' :: ' ' :: ' ' :: '"' :: ("tstamps".toList ++ '"' :: ':' :: ' ' :: (cArr c ++ '\n' :: ['\x7d'])))))))

lemma parseSeries_cSeries (a b c : PyList)
    (ha : allSan a = true) (hb : allSan b = true) (hc : allSan c = true) :
    parseSeries (cSeries a b c) = some (jList a, jList b, jList c) := by
  unfold parseSeries cSeries
  rw [skipWs_cons_notws '\x7b' (by decide) (by decide)]
  dsimp only
  rw [if_pos rfl]
  set r0 : List Char := '\n' :: ' ' :: ' ' :: '"' :: ("fs".toList ++ '"' :: ':' :: ' ' :: (cArr a ++ ',' :: '\n' :: ' ' :: ' ' :: '"' :: ("samples".toList ++ '"' :: ':' :: ' ' :: (cArr b ++ ',' :: '\n' :: ' ' :: ' ' :: '"' :: ("tstamps".toList ++ '"' :: ':' :: ' ' :: (cArr c ++ '\n' :: ['\x7d'])))))) with hr0
  set rest1 : List Char := ',' :: '\n' :: ' ' :: ' ' :: '"' :: ("samples".toList ++ '"' :: ':' :: ' ' :: (cArr b ++ ',' :: '\n' :: ' ' :: ' ' :: '"' :: ("tstamps".toList ++ '"' :: ':' :: ' ' :: (cArr c ++ '\n' :: ['\x7d'])))) with hrest1
  have hr0sh : r0 = ['\n', ' ', ' '] ++ ('"' :: ("fs".toList ++ '"' :: ':' :: ' ' ::
      (cArr a ++ rest1))) := by
    rw [hr0, hrest1]
    simp
  have hfa : pyListLen a < r0.length + 1 := by
    have h1 := cArr_len a ha
    rw [hr0sh]
    simp only [List.length_append, List.length_cons]
    omega
  have happ1 : parseKeyArr (r0.length + 1) "fs".toList r0 = some (jList a, rest1) := by
    nth_rewrite 2 [hr0sh]
    exact parseKeyArr_round "fs".toList a ['\n', ' ', ' '] rest1 (r0.length + 1) ha (by
      intro x hx
      simp at hx
      tauto) hfa
  rw [happ1]
  dsimp only
  rw [hrest1, skipWs_cons_notws ',' (by decide) (by decide)]
  dsimp only
  rw [if_pos rfl]
  set r2 : List Char := '\n' :: ' ' :: ' ' :: '"' :: ("samples".toList ++ '"' :: ':' :: ' ' :: (cArr b ++ ',' :: '\n' :: ' ' :: ' ' :: '"' :: ("tstamps".toList ++ '"' :: ':' :: ' ' :: (cArr c ++ '\n' :: ['\x7d'])))) with hr2
  set rest2 : List Char := ',' :: '\n' :: ' ' :: ' ' :: '"' :: ("tstamps".toList ++ '"' :: ':' :: ' ' :: (cArr c ++ '\n' :: ['\x7d'])) with hrest2
  have hr2sh : r2 = ['\n', ' ', ' '] ++ ('"' :: ("samples".toList ++ '"' :: ':' :: ' ' ::
      (cArr b ++ rest2))) := by
    rw [hr2, hrest2]
    simp
  have hfb : pyListLen b < r2.length + 1 := by
    have h1 := cArr_len b hb
    rw [hr2sh]
    simp only [List.length_append, List.length_cons]
    omega
  have happ2 : parseKeyArr (r2.length + 1) "samples".toList r2 = some (jList b, rest2) := by
    nth_rewrite 2 [hr2sh]
    exact parseKeyArr_round "samples".toList b ['\n', ' ', ' '] rest2 (r2.length + 1) hb (by
      intro x hx
      simp at hx
      tauto) hfb
  rw [happ2]
  dsimp only
  rw [hrest2, skipWs_cons_notws ',' (by decide) (by decide)]
  dsimp only
  rw [if_pos rfl]
  set r4 : List Char := '\n' :: ' ' :: ' ' :: '"' :: ("tstamps".toList ++ '"' :: ':' :: ' ' :: (cArr c ++ '\n' :: ['\x7d'])) with hr4
  have hr4sh : r4 = ['\n', ' ', ' '] ++ ('"' :: ("tstamps".toList ++ '"' :: ':' :: ' ' ::
      (cArr c ++ '\n' :: ['\x7d']))) := by
    rw [hr4]
    simp
  have hfc : pyListLen c < r4.length + 1 := by
    have h1 := cArr_len c hc
    rw [hr4sh]
    simp only [List.length_append, List.length_cons]
    omega
  have happ3 : parseKeyArr (r4.length + 1) "tstamps".toList r4
      = some (jList c, '\n' :: ['\x7d']) := by
    nth_rewrite 2 [hr4sh]
    exact parseKeyArr_round "tstamps".toList c ['\n', ' ', ' '] ('\n' :: ['\x7d'])
      (r4.length + 1) hc (by
      intro x hx
      simp at hx
      tauto) hfc
  rw [happ3]
  dsimp only
  rw [show skipWs ('\n' :: ['\x7d']) = ['\x7d'] from by simp [skipWs, List.dropWhile_cons]]
  dsimp only
  rw [if_pos rfl, show skipWs ([] : List Char) = [] from rfl]
  simp

lemma pyReplace_nil (p q : List Char) : pyReplace p q [] = [] := by
  simp [pyReplace]

lemma pyReplace_cons_not (p q : List Char) (c : Char) (s : List Char)
    (h : p.isPrefixOf (c :: s) = false) :
    pyReplace p q (c :: s) = c :: pyReplace p q s := by
  rw [pyReplace]
  rw [if_neg]
  intro hand
  rw [hand.2] at h
  simp at h

lemma pyReplace_fire (p q s : List Char) (hp : p ≠ []) :
    pyReplace p q (p ++ s) = q ++ pyReplace p q s := by
  obtain ⟨c, p2, rfl⟩ := List.exists_cons_of_ne_nil hp
  rw [List.cons_append, pyReplace]
  rw [if_pos]
  · congr 1
    congr 1
    rw [List.length_cons]
    simp only [Nat.add_sub_cancel]
    exact List.drop_left p2 s
  · refine ⟨hp, ?_⟩
    apply List.isPrefixOf_iff_prefix.mpr
    exact ⟨s, by simp⟩

lemma pyReplace_chunk (p q t s : List Char) (hp : p.head? = some '\n')
    (h : ∀ c ∈ t, c ≠ '\n') :
    pyReplace p q (t ++ s) = t ++ pyReplace p q s := by
  induction t with
  | nil => simp
  | cons c t2 ih =>
    have hc : c ≠ '\n' := h c (by simp)
    obtain ⟨p2, hp2⟩ : ∃ p2, p = '\n' :: p2 := by
      cases p with
      | nil => simp at hp
      | cons x xs =>
        simp only [List.head?_cons, Option.some_inj] at hp
        exact ⟨xs, by rw [hp]⟩
    have hpref : p.isPrefixOf (c :: (t2 ++ s)) = false := by
      rw [hp2]
      show (('\n' == c) && p2.isPrefixOf (t2 ++ s)) = false
      have : ('\n' == c) = false := by
        simp only [beq_eq_false_iff_ne, ne_eq]
        intro he
        exact hc he.symm
      rw [this, Bool.false_and]
    rw [List.cons_append, pyReplace_cons_not _ _ _ _ hpref, ih (fun x hx => h x (by simp [hx]))]
    simp

lemma pyReplace_filter_le (p q : List Char) (keep : Char → Bool)
    (hpq : p.filter keep = q.filter keep) (hp : p ≠ []) :
    ∀ (n : ℕ) (s : List Char), s.length ≤ n →
      (pyReplace p q s).filter keep = s.filter keep := by
  intro n
  induction n with
  | zero =>
    intro s h
    have hs : s = [] := List.eq_nil_of_length_eq_zero (by omega)
    subst hs
    rw [pyReplace_nil]
  | succ m ih =>
    intro s hlen
    cases s with
    | nil => rw [pyReplace_nil]
    | cons c s2 =>
      cases hpre : p.isPrefixOf (c :: s2) with
      | false =>
        rw [pyReplace_cons_not _ _ _ _ hpre]
        simp only [List.filter_cons]
        rw [ih s2 (by simp at hlen; omega)]
      | true =>
        obtain ⟨t, ht⟩ := List.isPrefixOf_iff_prefix.mp hpre
        have hplen : 1 ≤ p.length := by
          cases p with
          | nil => exact absurd rfl hp
          | cons x xs => simp
        have htlen : t.length ≤ m := by
          have := congrArg List.length ht
          simp only [List.length_append, List.length_cons] at this hlen ⊢
          omega
        rw [← ht, pyReplace_fire p q t hp, List.filter_append, List.filter_append, hpq,
          ih t htlen]

lemma pyReplace_filter (p q : List Char) (keep : Char → Bool)
    (hpq : p.filter keep = q.filter keep) (hp : p ≠ []) (s : List Char) :
    (pyReplace p q s).filter keep = s.filter keep :=
  pyReplace_filter_le p q keep hpq hp s.length s le_rfl

lemma compactChunk_filter (s : List Char) :
    (compactChunk s).filter (fun c => !(c = ' ' || c = '\n'))
      = s.filter (fun c => !(c = ' ' || c = '\n')) := by
  unfold compactChunk
  rw [pyReplace_filter _ _ _ (by decide) (by decide),
    pyReplace_filter _ _ _ (by decide) (by decide),
    pyReplace_filter _ _ _ (by decide) (by decide)]

def plainElemChar (x : Char) : Bool :=
  x.isDigit || x = '-' || x = '.' || x = 'n' || x = 'u' || x = 'l'

lemma natChars_plain (n : ℕ) : ∀ x ∈ natChars n, plainElemChar x = true := by
  intro x hx
  have h := natChars_digits n x hx
  simp [plainElemChar, h]

lemma magChars_plain (a k : ℕ) : ∀ x ∈ magChars a k, plainElemChar x = true := by
  intro x hx
  unfold magChars at hx
  simp only [List.mem_append, List.mem_cons] at hx
  rcases hx with hx | hx | hx
  · have hx2 := List.mem_of_mem_take hx
    split at hx2
    · rcases List.mem_append.mp hx2 with h | h
      · rw [List.eq_of_mem_replicate h]
        decide
      · exact natChars_plain a x h
    · exact natChars_plain a x hx2
  · rw [hx]
    decide
  · split at hx
    · simp at hx
      rw [hx]
      decide
    · have hx2 := List.mem_of_mem_drop hx
      split at hx2
      · rcases List.mem_append.mp hx2 with h | h
        · rw [List.eq_of_mem_replicate h]
          decide
        · exact natChars_plain a x h
      · exact natChars_plain a x hx2

lemma emitVal_plain (v : PyVal) (hv : sanElem v = true) (lvl : ℕ) :
    ∀ x ∈ emitVal lvl v, plainElemChar x = true := by
  cases v with
  | int n =>
    intro x hx
    have he : emitVal lvl (.int n) = intChars n := by simp [emitVal]
    rw [he] at hx
    unfold intChars at hx
    split at hx
    · rcases List.mem_cons.mp hx with h | h
      · rw [h]
        decide
      · exact natChars_plain _ x h
    · exact natChars_plain _ x hx
  | float f =>
    cases f with
    | fin q =>
      intro x hx
      have he : emitVal lvl (.float (.fin q)) = qChars q := by simp [emitVal, floatChars]
      have hdy : isDyadic q = true := by simpa [sanElem] using hv
      rw [he] at hx
      unfold qChars at hx
      rw [if_pos (dyadic_dvd q hdy), decimalOf_eq_magChars] at hx
      rcases List.mem_append.mp hx with h | h
      · split at h
        · simp at h
          rw [h]
          decide
        · simp at h
      · exact magChars_plain _ _ x h
    | nan => simp [sanElem] at hv
    | inf => simp [sanElem] at hv
    | ninf => simp [sanElem] at hv
  | none =>
    intro x hx
    have he : emitVal lvl PyVal.none = "null".toList := by simp [emitVal]
    rw [he] at hx
    fin_cases hx <;> decide
  | str s => simp [sanElem] at hv
  | bool b => simp [sanElem] at hv
  | list l => simp [sanElem] at hv
  | dict d => simp [sanElem] at hv

lemma plain_ne (x : Char) (h : plainElemChar x = true) :
    x ≠ '\n' ∧ x ≠ ' ' ∧ x ≠ 'N' ∧ x ≠ 'I' := by
  simp only [plainElemChar, Bool.or_eq_true, decide_eq_true_eq] at h
  rcases h with ((((h | h) | h) | h) | h) | h
  · obtain ⟨h1, h2⟩ := isDigit_toNat_range x h
    refine ⟨ne_of_toNat_ne x '\n' ?_, ne_of_toNat_ne x ' ' ?_,
      ne_of_toNat_ne x 'N' ?_, ne_of_toNat_ne x 'I' ?_⟩
    · rw [show ('\n').toNat = 10 from rfl]
      omega
    · rw [show (' ').toNat = 32 from rfl]
      omega
    · rw [show ('N').toNat = 78 from rfl]
      omega
    · rw [show ('I').toNat = 73 from rfl]
      omega
  all_goals subst h
  all_goals exact ⟨by decide, by decide, by decide, by decide⟩

lemma chunk_elem (p q : List Char) (hp : p.head? = some '\n') (v : PyVal)
    (hv : sanElem v = true) (lvl : ℕ) (s : List Char) :
    pyReplace p q (emitVal lvl v ++ s) = emitVal lvl v ++ pyReplace p q s :=
  pyReplace_chunk p q _ s hp (fun c hc => (plain_ne c (emitVal_plain v hv lvl c hc)).1)

lemma r1_items : ∀ (t : PyList) (v : PyVal), sanElem v = true → allSan t = true →
    ∀ rest : List Char,
      pyReplace "\n  [\n    ".toList " [".toList (emitItems 2 (PyList.cons v t) ++ rest)
        = emitItems 2 (PyList.cons v t) ++ pyReplace "\n  [\n    ".toList " [".toList rest
  | .nil, v => fun hv _ rest => by
    have hsh : emitItems 2 (PyList.cons v PyList.nil) = emitVal 2 v := by simp [emitItems]
    rw [hsh, chunk_elem _ _ (by decide) v hv 2 rest]
  | .cons w t2, v => fun hv hall rest => by
    have hw : sanElem w = true := by
      simp [allSan, Bool.and_eq_true] at hall
      exact hall.1
    have ht2 : allSan t2 = true := by
      simp [allSan, Bool.and_eq_true] at hall
      exact hall.2
    have hsh : emitItems 2 (PyList.cons v (PyList.cons w t2)) ++ rest
        = emitVal 2 v ++ (',' :: '\n' :: ' ' :: ' ' :: ' ' :: ' ' ::
            (emitItems 2 (PyList.cons w t2) ++ rest)) := by
      simp [emitItems, nlind, ind, List.replicate_succ]
    rw [hsh, chunk_elem _ _ (by decide) v hv 2]
    rw [pyReplace_cons_not _ _ ',' _ (by simp [List.isPrefixOf])]
    rw [pyReplace_cons_not _ _ '\n' _ (by simp [List.isPrefixOf])]
    rw [show (' ' :: ' ' :: ' ' :: ' ' :: (emitItems 2 (PyList.cons w t2) ++ rest))
        = [' ', ' ', ' ', ' '] ++ (emitItems 2 (PyList.cons w t2) ++ rest) from rfl]
    rw [pyReplace_chunk _ _ _ _ (by decide) (by intro x hx; fin_cases hx <;> decide)]
    rw [r1_items t2 w hw ht2 rest]
    simp [emitItems, nlind, ind, List.replicate_succ]

lemma r1_arr (l : PyList) (hall : allSan l = true) (rest : List Char) :
    pyReplace "\n  [\n    ".toList " [".toList (emitVal 1 (.list l) ++ rest)
      = emitVal 1 (.list l) ++ pyReplace "\n  [\n    ".toList " [".toList rest := by
  cases l with
  | nil =>
    have hsh : emitVal 1 (.list PyList.nil) = ['[', ']'] := by simp [emitVal]
    rw [hsh, show (['[', ']'] ++ rest : List Char) = ['[', ']'] ++ rest from rfl,
      pyReplace_chunk _ _ _ _ (by decide) (by intro x hx; fin_cases hx <;> decide)]
  | cons v t =>
    have hv : sanElem v = true := by
      simp [allSan, Bool.and_eq_true] at hall
      exact hall.1
    have ht : allSan t = true := by
      simp [allSan, Bool.and_eq_true] at hall
      exact hall.2
    have hsh : emitVal 1 (.list (PyList.cons v t)) ++ rest
        = '[' :: '\n' :: ' ' :: ' ' :: ' ' :: ' ' ::
            (emitItems 2 (PyList.cons v t) ++ ('\n' :: ' ' :: ' ' :: (']' :: rest))) := by
      simp [emitVal, nlind, ind, List.replicate_succ]
    rw [hsh]
    rw [pyReplace_cons_not _ _ '[' _ (by simp [List.isPrefixOf])]
    rw [pyReplace_cons_not _ _ '\n' _ (by simp [List.isPrefixOf])]
    rw [show (' ' :: ' ' :: ' ' :: ' ' ::
          (emitItems 2 (PyList.cons v t) ++ ('\n' :: ' ' :: ' ' :: (']' :: rest))))
        = [' ', ' ', ' ', ' '] ++ (emitItems 2 (PyList.cons v t)
            ++ ('\n' :: ' ' :: ' ' :: (']' :: rest))) from rfl]
    rw [pyReplace_chunk _ _ _ _ (by decide) (by intro x hx; fin_cases hx <;> decide)]
    rw [r1_items t v hv ht]
    rw [pyReplace_cons_not _ _ '\n' _ (by simp [List.isPrefixOf])]
    rw [show (' ' :: ' ' :: (']' :: rest) : List Char) = [' ', ' ', ']'] ++ rest from rfl]
    rw [pyReplace_chunk _ _ _ _ (by decide) (by intro x hx; fin_cases hx <;> decide)]
    simp [emitVal, nlind, ind, List.replicate_succ]

lemma r2_items : ∀ (t : PyList) (v : PyVal), sanElem v = true → allSan t = true →
    ∀ rest : List Char,
      pyReplace "\n    ".toList " ".toList (emitItems 2 (PyList.cons v t) ++ rest)
        = cItems v t ++ pyReplace "\n    ".toList " ".toList rest
  | .nil, v => fun hv _ rest => by
    have hsh : emitItems 2 (PyList.cons v PyList.nil) = emitVal 2 v := by simp [emitItems]
    rw [hsh, chunk_elem _ _ (by decide) v hv 2 rest]
    simp [cItems]
  | .cons w t2, v => fun hv hall rest => by
    have hw : sanElem w = true := by
      simp [allSan, Bool.and_eq_true] at hall
      exact hall.1
    have ht2 : allSan t2 = true := by
      simp [allSan, Bool.and_eq_true] at hall
      exact hall.2
    have hsh : emitItems 2 (PyList.cons v (PyList.cons w t2)) ++ rest
        = emitVal 2 v ++ (',' :: ("\n    ".toList
            ++ (emitItems 2 (PyList.cons w t2) ++ rest))) := by
      simp [emitItems, nlind, ind, List.replicate_succ]
    rw [hsh, chunk_elem _ _ (by decide) v hv 2]
    rw [pyReplace_cons_not _ _ ',' _ (by simp [List.isPrefixOf])]
    rw [pyReplace_fire _ _ _ (by decide)]
    rw [r2_items t2 w hw ht2 rest]
    simp [cItems]

def mArr : PyList → List Char
  | .nil => "[]".toList
  | .cons v t => '[' :: ' ' :: (cItems v t ++ '\n' :: ' ' :: ' ' :: [']'])

lemma r2_arr (l : PyList) (hall : allSan l = true) (rest : List Char) :
    pyReplace "\n    ".toList " ".toList (emitVal 1 (.list l) ++ rest)
      = mArr l ++ pyReplace "\n    ".toList " ".toList rest := by
  cases l with
  | nil =>
    have hsh : emitVal 1 (.list PyList.nil) = ['[', ']'] := by simp [emitVal]
    rw [hsh, show (['[', ']'] ++ rest : List Char) = ['[', ']'] ++ rest from rfl,
      pyReplace_chunk _ _ _ _ (by decide) (by intro x hx; fin_cases hx <;> decide)]
    simp [mArr]
  | cons v t =>
    have hv : sanElem v = true := by
      simp [allSan, Bool.and_eq_true] at hall
      exact hall.1
    have ht : allSan t = true := by
      simp [allSan, Bool.and_eq_true] at hall
      exact hall.2
    have hsh : emitVal 1 (.list (PyList.cons v t)) ++ rest
        = '[' :: ("\n    ".toList
            ++ (emitItems 2 (PyList.cons v t) ++ ('\n' :: ' ' :: ' ' :: (']' :: rest)))) := by
      simp [emitVal, nlind, ind, List.replicate_succ]
    rw [hsh]
    rw [pyReplace_cons_not _ _ '[' _ (by simp [List.isPrefixOf])]
    rw [pyReplace_fire _ _ _ (by decide)]
    rw [r2_items t v hv ht]
    rw [pyReplace_cons_not _ _ '\n' _ (by simp [List.isPrefixOf])]
    rw [show (' ' :: ' ' :: (']' :: rest) : List Char) = [' ', ' ', ']'] ++ rest from rfl]
    rw [pyReplace_chunk _ _ _ _ (by decide) (by intro x hx; fin_cases hx <;> decide)]
    simp [mArr, cItems]

lemma cItems_no_nl : ∀ (t : PyList) (v : PyVal), sanElem v = true → allSan t = true →
    ∀ x ∈ cItems v t, x ≠ '\n'
  | .nil, v => fun hv _ x hx => by
    have hsh : cItems v PyList.nil = emitVal 2 v := by simp [cItems]
    rw [hsh] at hx
    exact (plain_ne x (emitVal_plain v hv 2 x hx)).1
  | .cons w t2, v => fun hv hall x hx => by
    have hw : sanElem w = true := by
      simp [allSan, Bool.and_eq_true] at hall
      exact hall.1
    have ht2 : allSan t2 = true := by
      simp [allSan, Bool.and_eq_true] at hall
      exact hall.2
    have hsh : cItems v (PyList.cons w t2)
        = emitVal 2 v ++ ',' :: ' ' :: cItems w t2 := by simp [cItems]
    rw [hsh] at hx
    rcases List.mem_append.mp hx with h | h
    · exact (plain_ne x (emitVal_plain v hv 2 x h)).1
    · rcases List.mem_cons.mp h with h2 | h2
      · rw [h2]
        decide
      · rcases List.mem_cons.mp h2 with h3 | h3
        · rw [h3]
          decide
        · exact cItems_no_nl t2 w hw ht2 x h3

lemma r3_arr (l : PyList) (hall : allSan l = true) (rest : List Char) :
    pyReplace "\n  ]".toList "]".toList (mArr l ++ rest)
      = cArr l ++ pyReplace "\n  ]".toList "]".toList rest := by
  cases l with
  | nil =>
    rw [show (mArr PyList.nil ++ rest : List Char) = ['[', ']'] ++ rest from rfl,
      pyReplace_chunk _ _ _ _ (by decide) (by intro x hx; fin_cases hx <;> decide)]
    simp [cArr]
  | cons v t =>
    have hv : sanElem v = true := by
      simp [allSan, Bool.and_eq_true] at hall
      exact hall.1
    have ht : allSan t = true := by
      simp [allSan, Bool.and_eq_true] at hall
      exact hall.2
    have hsh : mArr (PyList.cons v t) ++ rest
        = '[' :: ' ' :: (cItems v t ++ ("\n  ]".toList ++ rest)) := by
      simp [mArr]
    rw [hsh]
    rw [pyReplace_cons_not _ _ '[' _ (by simp [List.isPrefixOf])]
    rw [pyReplace_cons_not _ _ ' ' _ (by simp [List.isPrefixOf])]
    rw [pyReplace_chunk _ _ _ _ (by decide) (cItems_no_nl t v hv ht)]
    rw [pyReplace_fire _ _ _ (by decide)]
    simp [cArr]

def seriesDict (a b c : PyList) : PyDict :=
  .cons "fs".toList (.list a)
    (.cons "samples".toList (.list b) (.cons "tstamps".toList (.list c) .nil))

lemma r1_series (a b c : PyList)
    (ha : allSan a = true) (hb : allSan b = true) (hc : allSan c = true) :
    pyReplace "\n  [\n    ".toList " [".toList
      ('\x7b' :: '\n' :: ' ' :: ' ' :: '"' :: 'f' :: 's' :: '"' :: ':' :: ' ' ::
        (emitVal 1 (.list a) ++ ',' :: '\n' :: ' ' :: ' ' :: '"' :: 's' :: 'a' :: 'm' :: 'p' :: 'l' :: 'e' :: 's' :: '"' :: ':' :: ' ' ::
          (emitVal 1 (.list b) ++ ',' :: '\n' :: ' ' :: ' ' :: '"' :: 't' :: 's' :: 't' :: 'a' :: 'm' :: 'p' :: 's' :: '"' :: ':' :: ' ' ::
            (emitVal 1 (.list c) ++ '\n' :: ['\x7d']))))
    = '\x7b' :: '\n' :: ' ' :: ' ' :: '"' :: 'f' :: 's' :: '"' :: ':' :: ' ' ::
        (emitVal 1 (.list a) ++ ',' :: '\n' :: ' ' :: ' ' :: '"' :: 's' :: 'a' :: 'm' :: 'p' :: 'l' :: 'e' :: 's' :: '"' :: ':' :: ' ' ::
          (emitVal 1 (.list b) ++ ',' :: '\n' :: ' ' :: ' ' :: '"' :: 't' :: 's' :: 't' :: 'a' :: 'm' :: 'p' :: 's' :: '"' :: ':' :: ' ' ::
            (emitVal 1 (.list c) ++ '\n' :: ['\x7d']))) := by
  rw [pyReplace_cons_not _ _ '\x7b' _ (by simp [List.isPrefixOf])]
  rw [pyReplace_cons_not _ _ '\n' _ (by simp [List.isPrefixOf])]
  rw [show (' ' :: ' ' :: '"' :: 'f' :: 's' :: '"' :: ':' :: ' ' ::
        (emitVal 1 (.list a) ++ ',' :: '\n' :: ' ' :: ' ' :: '"' :: 's' :: 'a' :: 'm' :: 'p' :: 'l' :: 'e' :: 's' :: '"' :: ':' :: ' ' ::
          (emitVal 1 (.list b) ++ ',' :: '\n' :: ' ' :: ' ' :: '"' :: 't' :: 's' :: 't' :: 'a' :: 'm' :: 'p' :: 's' :: '"' :: ':' :: ' ' ::
            (emitVal 1 (.list c) ++ '\n' :: ['\x7d']))))
      = [' ', ' ', '"', 'f', 's', '"', ':', ' '] ++ (emitVal 1 (.list a) ++ (',' :: '\n' :: ' ' :: ' ' :: '"' :: 's' :: 'a' :: 'm' :: 'p' :: 'l' :: 'e' :: 's' :: '"' :: ':' :: ' ' ::
          (emitVal 1 (.list b) ++ ',' :: '\n' :: ' ' :: ' ' :: '"' :: 't' :: 's' :: 't' :: 'a' :: 'm' :: 'p' :: 's' :: '"' :: ':' :: ' ' ::
            (emitVal 1 (.list c) ++ '\n' :: ['\x7d'])))) from by simp]
  rw [pyReplace_chunk _ _ _ _ (by decide) (by intro x hx; fin_cases hx <;> decide)]
  rw [r1_arr a ha]
  rw [pyReplace_cons_not _ _ ',' _ (by simp [List.isPrefixOf])]
  rw [pyReplace_cons_not _ _ '\n' _ (by simp [List.isPrefixOf])]
  rw [show (' ' :: ' ' :: '"' :: 's' :: 'a' :: 'm' :: 'p' :: 'l' :: 'e' :: 's' :: '"' :: ':' :: ' ' ::
          (emitVal 1 (.list b) ++ ',' :: '\n' :: ' ' :: ' ' :: '"' :: 't' :: 's' :: 't' :: 'a' :: 'm' :: 'p' :: 's' :: '"' :: ':' :: ' ' ::
            (emitVal 1 (.list c) ++ '\n' :: ['\x7d'])))
      = [' ', ' ', '"', 's', 'a', 'm', 'p', 'l', 'e', 's', '"', ':', ' '] ++ (emitVal 1 (.list b) ++ (',' :: '\n' :: ' ' :: ' ' :: '"' :: 't' :: 's' :: 't' :: 'a' :: 'm' :: 'p' :: 's' :: '"' :: ':' :: ' ' ::
            (emitVal 1 (.list c) ++ '\n' :: ['\x7d']))) from by simp]
  rw [pyReplace_chunk _ _ _ _ (by decide) (by intro x hx; fin_cases hx <;> decide)]
  rw [r1_arr b hb]
  rw [pyReplace_cons_not _ _ ',' _ (by simp [List.isPrefixOf])]
  rw [pyReplace_cons_not _ _ '\n' _ (by simp [List.isPrefixOf])]
  rw [show (' ' :: ' ' :: '"' :: 't' :: 's' :: 't' :: 'a' :: 'm' :: 'p' :: 's' :: '"' :: ':' :: ' ' ::
            (emitVal 1 (.list c) ++ '\n' :: ['\x7d']))
      = [' ', ' ', '"', 't', 's', 't', 'a', 'm', 'p', 's', '"', ':', ' '] ++ (emitVal 1 (.list c) ++ ('\n' :: ['\x7d'])) from by simp]
  rw [pyReplace_chunk _ _ _ _ (by decide) (by intro x hx; fin_cases hx <;> decide)]
  rw [r1_arr c hc]
  rw [pyReplace_cons_not _ _ '\n' _ (by simp [List.isPrefixOf])]
  rw [pyReplace_cons_not _ _ '\x7d' _ (by simp [List.isPrefixOf])]
  rw [pyReplace_nil]

lemma r2_series (a b c : PyList)
    (ha : allSan a = true) (hb : allSan b = true) (hc : allSan c = true) :
    pyReplace "\n    ".toList " ".toList
      ('\x7b' :: '\n' :: ' ' :: ' ' :: '"' :: 'f' :: 's' :: '"' :: ':' :: ' ' ::
        (emitVal 1 (.list a) ++ ',' :: '\n' :: ' ' :: ' ' :: '"' :: 's' :: 'a' :: 'm' :: 'p' :: 'l' :: 'e' :: 's' :: '"' :: ':' :: ' ' ::
          (emitVal 1 (.list b) ++ ',' :: '\n' :: ' ' :: ' ' :: '"' :: 't' :: 's' :: 't' :: 'a' :: 'm' :: 'p' :: 's' :: '"' :: ':' :: ' ' ::
            (emitVal 1 (.list c) ++ '\n' :: ['\x7d']))))
    = '\x7b' :: '\n' :: ' ' :: ' ' :: '"' :: 'f' :: 's' :: '"' :: ':' :: ' ' ::
        (mArr a ++ ',' :: '\n' :: ' ' :: ' ' :: '"' :: 's' :: 'a' :: 'm' :: 'p' :: 'l' :: 'e' :: 's' :: '"' :: ':' :: ' ' ::
          (mArr b ++ ',' :: '\n' :: ' ' :: ' ' :: '"' :: 't' :: 's' :: 't' :: 'a' :: 'm' :: 'p' :: 's' :: '"' :: ':' :: ' ' ::
            (mArr c ++ '\n' :: ['\x7d']))) := by
  rw [pyReplace_cons_not _ _ '\x7b' _ (by simp [List.isPrefixOf])]
  rw [pyReplace_cons_not _ _ '\n' _ (by simp [List.isPrefixOf])]
  rw [show (' ' :: ' ' :: '"' :: 'f' :: 's' :: '"' :: ':' :: ' ' ::
        (emitVal 1 (.list a) ++ ',' :: '\n' :: ' ' :: ' ' :: '"' :: 's' :: 'a' :: 'm' :: 'p' :: 'l' :: 'e' :: 's' :: '"' :: ':' :: ' ' ::
          (emitVal 1 (.list b) ++ ',' :: '\n' :: ' ' :: ' ' :: '"' :: 't' :: 's' :: 't' :: 'a' :: 'm' :: 'p' :: 's' :: '"' :: ':' :: ' ' ::
            (emitVal 1 (.list c) ++ '\n' :: ['\x7d']))))
      = [' ', ' ', '"', 'f', 's', '"', ':', ' '] ++ (emitVal 1 (.list a) ++ (',' :: '\n' :: ' ' :: ' ' :: '"' :: 's' :: 'a' :: 'm' :: 'p' :: 'l' :: 'e' :: 's' :: '"' :: ':' :: ' ' ::
          (emitVal 1 (.list b) ++ ',' :: '\n' :: ' ' :: ' ' :: '"' :: 't' :: 's' :: 't' :: 'a' :: 'm' :: 'p' :: 's' :: '"' :: ':' :: ' ' ::
            (emitVal 1 (.list c) ++ '\n' :: ['\x7d'])))) from by simp]
  rw [pyReplace_chunk _ _ _ _ (by decide) (by intro x hx; fin_cases hx <;> decide)]
  rw [r2_arr a ha]
  rw [pyReplace_cons_not _ _ ',' _ (by simp [List.isPrefixOf])]
  rw [pyReplace_cons_not _ _ '\n' _ (by simp [List.isPrefixOf])]
  rw [show (' ' :: ' ' :: '"' :: 's' :: 'a' :: 'm' :: 'p' :: 'l' :: 'e' :: 's' :: '"' :: ':' :: ' ' ::
          (emitVal 1 (.list b) ++ ',' :: '\n' :: ' ' :: ' ' :: '"' :: 't' :: 's' :: 't' :: 'a' :: 'm' :: 'p' :: 's' :: '"' :: ':' :: ' ' ::
            (emitVal 1 (.list c) ++ '\n' :: ['\x7d'])))
      = [' ', ' ', '"', 's', 'a', 'm', 'p', 'l', 'e', 's', '"', ':', ' '] ++ (emitVal 1 (.list b) ++ (',' :: '\n' :: ' ' :: ' ' :: '"' :: 't' :: 's' :: 't' :: 'a' :: 'm' :: 'p' :: 's' :: '"' :: ':' :: ' ' ::
            (emitVal 1 (.list c) ++ '\n' :: ['\x7d']))) from by simp]
  rw [pyReplace_chunk _ _ _ _ (by decide) (by intro x hx; fin_cases hx <;> decide)]
  rw [r2_arr b hb]
  rw [pyReplace_cons_not _ _ ',' _ (by simp [List.isPrefixOf])]
  rw [pyReplace_cons_not _ _ '\n' _ (by simp [List.isPrefixOf])]
  rw [show (' ' :: ' ' :: '"' :: 't' :: 's' :: 't' :: 'a' :: 'm' :: 'p' :: 's' :: '"' :: ':' :: ' ' ::
            (emitVal 1 (.list c) ++ '\n' :: ['\x7d']))
      = [' ', ' ', '"', 't', 's', 't', 'a', 'm', 'p', 's', '"', ':', ' '] ++ (emitVal 1 (.list c) ++ ('\n' :: ['\x7d'])) from by simp]
  rw [pyReplace_chunk _ _ _ _ (by decide) (by intro x hx; fin_cases hx <;> decide)]
  rw [r2_arr c hc]
  rw [pyReplace_cons_not _ _ '\n' _ (by simp [List.isPrefixOf])]
  rw [pyReplace_cons_not _ _ '\x7d' _ (by simp [List.isPrefixOf])]
  rw [pyReplace_nil]
  simp

lemma r3_series (a b c : PyList)
    (ha : allSan a = true) (hb : allSan b = true) (hc : allSan c = true) :
    pyReplace "\n  ]".toList "]".toList
      ('\x7b' :: '\n' :: ' ' :: ' ' :: '"' :: 'f' :: 's' :: '"' :: ':' :: ' ' ::
        (mArr a ++ ',' :: '\n' :: ' ' :: ' ' :: '"' :: 's' :: 'a' :: 'm' :: 'p' :: 'l' :: 'e' :: 's' :: '"' :: ':' :: ' ' ::
          (mArr b ++ ',' :: '\n' :: ' ' :: ' ' :: '"' :: 't' :: 's' :: 't' :: 'a' :: 'm' :: 'p' :: 's' :: '"' :: ':' :: ' ' ::
            (mArr c ++ '\n' :: ['\x7d']))))
    = '\x7b' :: '\n' :: ' ' :: ' ' :: '"' :: 'f' :: 's' :: '"' :: ':' :: ' ' ::
        (cArr a ++ ',' :: '\n' :: ' ' :: ' ' :: '"' :: 's' :: 'a' :: 'm' :: 'p' :: 'l' :: 'e' :: 's' :: '"' :: ':' :: ' ' ::
          (cArr b ++ ',' :: '\n' :: ' ' :: ' ' :: '"' :: 't' :: 's' :: 't' :: 'a' :: 'm' :: 'p' :: 's' :: '"' :: ':' :: ' ' ::
            (cArr c ++ '\n' :: ['\x7d']))) := by
  rw [pyReplace_cons_not _ _ '\x7b' _ (by simp [List.isPrefixOf])]
  rw [pyReplace_cons_not _ _ '\n' _ (by simp [List.isPrefixOf])]
  rw [show (' ' :: ' ' :: '"' :: 'f' :: 's' :: '"' :: ':' :: ' ' ::
        (mArr a ++ ',' :: '\n' :: ' ' :: ' ' :: '"' :: 's' :: 'a' :: 'm' :: 'p' :: 'l' :: 'e' :: 's' :: '"' :: ':' :: ' ' ::
          (mArr b ++ ',' :: '\n' :: ' ' :: ' ' :: '"' :: 't' :: 's' :: 't' :: 'a' :: 'm' :: 'p' :: 's' :: '"' :: ':' :: ' ' ::
            (mArr c ++ '\n' :: ['\x7d']))))
      = [' ', ' ', '"', 'f', 's', '"', ':', ' '] ++ (mArr a ++ (',' :: '\n' :: ' ' :: ' ' :: '"' :: 's' :: 'a' :: 'm' :: 'p' :: 'l' :: 'e' :: 's' :: '"' :: ':' :: ' ' ::
          (mArr b ++ ',' :: '\n' :: ' ' :: ' ' :: '"' :: 't' :: 's' :: 't' :: 'a' :: 'm' :: 'p' :: 's' :: '"' :: ':' :: ' ' ::
            (mArr c ++ '\n' :: ['\x7d'])))) from by simp]
  rw [pyReplace_chunk _ _ _ _ (by decide) (by intro x hx; fin_cases hx <;> decide)]
  rw [r3_arr a ha]
  rw [pyReplace_cons_not _ _ ',' _ (by simp [List.isPrefixOf])]
  rw [pyReplace_cons_not _ _ '\n' _ (by simp [List.isPrefixOf])]
  rw [show (' ' :: ' ' :: '"' :: 's' :: 'a' :: 'm' :: 'p' :: 'l' :: 'e' :: 's' :: '"' :: ':' :: ' ' ::
          (mArr b ++ ',' :: '\n' :: ' ' :: ' ' :: '"' :: 't' :: 's' :: 't' :: 'a' :: 'm' :: 'p' :: 's' :: '"' :: ':' :: ' ' ::
            (mArr c ++ '\n' :: ['\x7d'])))
      = [' ', ' ', '"', 's', 'a', 'm', 'p', 'l', 'e', 's', '"', ':', ' '] ++ (mArr b ++ (',' :: '\n' :: ' ' :: ' ' :: '"' :: 't' :: 's' :: 't' :: 'a' :: 'm' :: 'p' :: 's' :: '"' :: ':' :: ' ' ::
            (mArr c ++ '\n' :: ['\x7d']))) from by simp]
  rw [pyReplace_chunk _ _ _ _ (by decide) (by intro x hx; fin_cases hx <;> decide)]
  rw [r3_arr b hb]
  rw [pyReplace_cons_not _ _ ',' _ (by simp [List.isPrefixOf])]
  rw [pyReplace_cons_not _ _ '\n' _ (by simp [List.isPrefixOf])]
  rw [show (' ' :: ' ' :: '"' :: 't' :: 's' :: 't' :: 'a' :: 'm' :: 'p' :: 's' :: '"' :: ':' :: ' ' ::
            (mArr c ++ '\n' :: ['\x7d']))
      = [' ', ' ', '"', 't', 's', 't', 'a', 'm', 'p', 's', '"', ':', ' '] ++ (mArr c ++ ('\n' :: ['\x7d'])) from by simp]
  rw [pyReplace_chunk _ _ _ _ (by decide) (by intro x hx; fin_cases hx <;> decide)]
  rw [r3_arr c hc]
  rw [pyReplace_cons_not _ _ '\n' _ (by simp [List.isPrefixOf])]
  rw [pyReplace_cons_not _ _ '\x7d' _ (by simp [List.isPrefixOf])]
  rw [pyReplace_nil]
  simp

lemma jsonDumps_series (a b c : PyList) :
    jsonDumps (.dict (seriesDict a b c))
      = '\x7b' :: '\n' :: ' ' :: ' ' :: '"' :: 'f' :: 's' :: '"' :: ':' :: ' ' ::
        (emitVal 1 (.list a) ++ ',' :: '\n' :: ' ' :: ' ' :: '"' :: 's' :: 'a' :: 'm' :: 'p' :: 'l' :: 'e' :: 's' :: '"' :: ':' :: ' ' ::
          (emitVal 1 (.list b) ++ ',' :: '\n' :: ' ' :: ' ' :: '"' :: 't' :: 's' :: 't' :: 'a' :: 'm' :: 'p' :: 's' :: '"' :: ':' :: ' ' ::
            (emitVal 1 (.list c) ++ '\n' :: ['\x7d']))) := by
  simp [jsonDumps, emitVal, emitPairs, seriesDict, escStr, escChar, nlind, ind,
    List.replicate_succ]

lemma compact_series (a b c : PyList)
    (ha : allSan a = true) (hb : allSan b = true) (hc : allSan c = true) :
    compactChunk (jsonDumps (.dict (seriesDict a b c))) = cSeries a b c := by
  unfold compactChunk
  rw [jsonDumps_series, r1_series a b c ha hb hc, r2_series a b c ha hb hc,
    r3_series a b c ha hb hc]
  simp [cSeries]

mutual
theorem noNonFinite_nanToNone : ∀ v : PyVal, noNonFinite (nan_to_none v) = true
  | .int _ => rfl
  | .float (.fin _) => rfl
  | .float .nan => rfl
  | .float .inf => rfl
  | .float .ninf => rfl
  | .str _ => rfl
  | .bool _ => rfl
  | .none => rfl
  | .list l => by simp [nan_to_none, noNonFinite, noNonFiniteList_nanToNoneList l]
  | .dict d => by simp [nan_to_none, noNonFinite, noNonFiniteDict_nanToNoneDict d]

theorem noNonFiniteList_nanToNoneList : ∀ l : PyList, noNonFiniteList (nanToNoneList l) = true
  | .nil => rfl
  | .cons v t => by
    simp [nanToNoneList, noNonFiniteList, noNonFinite_nanToNone v,
      noNonFiniteList_nanToNoneList t]

theorem noNonFiniteDict_nanToNoneDict : ∀ d : PyDict, noNonFiniteDict (nanToNoneDict d) = true
  | .nil => rfl
  | .cons k v t => by
    simp [nanToNoneDict, noNonFiniteDict, noNonFinite_nanToNone v,
      noNonFiniteDict_nanToNoneDict t]
end

mutual
theorem nanToNone_id : ∀ v : PyVal, noNonFinite v = true → nan_to_none v = v
  | .int _ => fun _ => rfl
  | .float (.fin _) => fun _ => rfl
  | .float .nan => fun h => by simp [noNonFinite] at h
  | .float .inf => fun h => by simp [noNonFinite] at h
  | .float .ninf => fun h => by simp [noNonFinite] at h
  | .str _ => fun _ => rfl
  | .bool _ => fun _ => rfl
  | .none => fun _ => rfl
  | .list l => fun h => by
    have h2 : noNonFiniteList l = true := by simpa [noNonFinite] using h
    simp [nan_to_none, nanToNoneList_id l h2]
  | .dict d => fun h => by
    have h2 : noNonFiniteDict d = true := by simpa [noNonFinite] using h
    simp [nan_to_none, nanToNoneDict_id d h2]

theorem nanToNoneList_id : ∀ l : PyList, noNonFiniteList l = true → nanToNoneList l = l
  | .nil => fun _ => rfl
  | .cons v t => fun h => by
    have h1 : noNonFinite v = true := by
      simp [noNonFiniteList, Bool.and_eq_true] at h
      exact h.1
    have h2 : noNonFiniteList t = true := by
      simp [noNonFiniteList, Bool.and_eq_true] at h
      exact h.2
    simp [nanToNoneList, nanToNone_id v h1, nanToNoneList_id t h2]

theorem nanToNoneDict_id : ∀ d : PyDict, noNonFiniteDict d = true → nanToNoneDict d = d
  | .nil => fun _ => rfl
  | .cons k v t => fun h => by
    have h1 : noNonFinite v = true := by
      simp [noNonFiniteDict, Bool.and_eq_true] at h
      exact h.1
    have h2 : noNonFiniteDict t = true := by
      simp [noNonFiniteDict, Bool.and_eq_true] at h
      exact h.2
    simp [nanToNoneDict, nanToNone_id v h1, nanToNoneDict_id t h2]
end

def numElem : PyVal → Bool
  | .int _ => true
  | .float (.fin q) => isDyadic q
  | .float _ => true
  | .none => true
  | _ => false

def allNum : PyList → Bool
  | .nil => true
  | .cons v t => numElem v && allNum t

lemma sanElem_nanToNone (v : PyVal) (h : numElem v = true) :
    sanElem (nan_to_none v) = true := by
  cases v with
  | int n => rfl
  | float f =>
    cases f with
    | fin q =>
      have hq : isDyadic q = true := by simpa [numElem] using h
      simpa [nan_to_none, sanElem] using hq
    | nan => rfl
    | inf => rfl
    | ninf => rfl
  | none => rfl
  | str s => simp [numElem] at h
  | bool b => simp [numElem] at h
  | list l => simp [numElem] at h
  | dict d => simp [numElem] at h

lemma allSan_nanToNoneList : ∀ l : PyList, allNum l = true → allSan (nanToNoneList l) = true
  | .nil => fun _ => rfl
  | .cons v t => fun h => by
    have h1 : numElem v = true := by
      simp [allNum, Bool.and_eq_true] at h
      exact h.1
    have h2 : allNum t = true := by
      simp [allNum, Bool.and_eq_true] at h
      exact h.2
    simp [nanToNoneList, allSan, sanElem_nanToNone v h1, allSan_nanToNoneList t h2]

lemma nanToNoneDict_series (a b c : PyList) :
    nanToNoneDict (seriesDict a b c)
      = seriesDict (nanToNoneList a) (nanToNoneList b) (nanToNoneList c) := by
  simp [nanToNoneDict, seriesDict, nan_to_none]

lemma cItems_chars : ∀ (t : PyList) (v : PyVal), sanElem v = true → allSan t = true →
    ∀ x ∈ cItems v t, plainElemChar x = true ∨ x = ',' ∨ x = ' '
  | .nil, v => fun hv _ x hx => by
    have hsh : cItems v PyList.nil = emitVal 2 v := by simp [cItems]
    rw [hsh] at hx
    exact Or.inl (emitVal_plain v hv 2 x hx)
  | .cons w t2, v => fun hv hall x hx => by
    have hw : sanElem w = true := by
      simp [allSan, Bool.and_eq_true] at hall
      exact hall.1
    have ht2 : allSan t2 = true := by
      simp [allSan, Bool.and_eq_true] at hall
      exact hall.2
    have hsh : cItems v (PyList.cons w t2)
        = emitVal 2 v ++ ',' :: ' ' :: cItems w t2 := by simp [cItems]
    rw [hsh] at hx
    rcases List.mem_append.mp hx with h | h
    · exact Or.inl (emitVal_plain v hv 2 x h)
    · rcases List.mem_cons.mp h with h2 | h2
      · exact Or.inr (Or.inl h2)
      · rcases List.mem_cons.mp h2 with h3 | h3
        · exact Or.inr (Or.inr h3)
        · exact cItems_chars t2 w hw ht2 x h3

lemma cArr_chars (l : PyList) (hall : allSan l = true) :
    ∀ x ∈ cArr l, plainElemChar x = true ∨ x = ',' ∨ x = ' ' ∨ x = '[' ∨ x = ']' := by
  cases l with
  | nil =>
    intro x hx
    simp [cArr] at hx
    rcases hx with h | h
    · exact Or.inr (Or.inr (Or.inr (Or.inl h)))
    · exact Or.inr (Or.inr (Or.inr (Or.inr h)))
  | cons v t =>
    intro x hx
    have hv : sanElem v = true := by
      simp [allSan, Bool.and_eq_true] at hall
      exact hall.1
    have ht : allSan t = true := by
      simp [allSan, Bool.and_eq_true] at hall
      exact hall.2
    simp only [cArr, List.mem_cons, List.mem_append] at hx
    rcases hx with h | h | h
    · exact Or.inr (Or.inr (Or.inr (Or.inl h)))
    · exact Or.inr (Or.inr (Or.inl h))
    · rcases h with h | h
      · rcases cItems_chars t v hv ht x h with h2 | h2 | h2
        · exact Or.inl h2
        · exact Or.inr (Or.inl h2)
        · exact Or.inr (Or.inr (Or.inl h2))
      · simp at h
        exact Or.inr (Or.inr (Or.inr (Or.inr h)))

lemma cSeries_noNI (a b c : PyList)
    (ha : allSan a = true) (hb : allSan b = true) (hc : allSan c = true) :
    ∀ x ∈ cSeries a b c, x ≠ 'N' ∧ x ≠ 'I' := by
  have harr : ∀ (l : PyList), allSan l = true → ∀ y ∈ cArr l, y ≠ 'N' ∧ y ≠ 'I' := by
    intro l hall y hy
    rcases cArr_chars l hall y hy with h | h | h | h | h
    · have hp := plain_ne y h
      exact ⟨hp.2.2.1, hp.2.2.2⟩
    all_goals subst h
    all_goals exact ⟨by decide, by decide⟩
  have hsh : cSeries a b c = ("\x7b\n  \"fs\": ".toList) ++ cArr a
      ++ (",\n  \"samples\": ".toList) ++ cArr b
      ++ (",\n  \"tstamps\": ".toList) ++ cArr c ++ ("\n\x7d".toList) := by
    simp [cSeries]
  intro x hx
  rw [hsh] at hx
  simp only [List.mem_append] at hx
  rcases hx with ((((((h | h) | h) | h) | h) | h) | h)
  · fin_cases h <;> exact ⟨by decide, by decide⟩
  · exact harr a ha x h
  · fin_cases h <;> exact ⟨by decide, by decide⟩
  · exact harr b hb x h
  · fin_cases h <;> exact ⟨by decide, by decide⟩
  · exact harr c hc x h
  · fin_cases h <;> exact ⟨by decide, by decide⟩

/-- Claim C7: JSON serialization first sanitizes recursively, replacing
every non-finite float anywhere in the structure with null while leaving
ints, strings and bools unchanged (conjuncts 1 and 2); the compaction of
the CompactJSONEncoder changes only whitespace (conjunct 3); and for
every Merged Series the emitted bytes contain no raw NaN or Infinity
token (no letter N or I at all) and parsing them recovers exactly the
sanitized series (conjunct 4). -/
theorem c7_json_sanitize_compact_parse :
    (∀ v : PyVal, noNonFinite (nan_to_none v) = true)
    ∧ (∀ v : PyVal, noNonFinite v = true → nan_to_none v = v)
    ∧ (∀ s : List Char,
        (compactChunk s).filter (fun ch => !(ch = ' ' || ch = '\n'))
          = s.filter (fun ch => !(ch = ' ' || ch = '\n')))
    ∧ (∀ a b c : PyList, allNum a = true → allNum b = true → allNum c = true →
        ∃ bytes : List Char,
          serialize_data_dict (seriesDict a b c) "json".toList "d".toList
            = .ok (.utf8 bytes, "d".toList ++ ".json".toList, "application/json".toList)
          ∧ (∀ ch ∈ bytes, ch ≠ 'N' ∧ ch ≠ 'I')
          ∧ parseSeries bytes
              = some (jList (nanToNoneList a), jList (nanToNoneList b),
                  jList (nanToNoneList c))) := by
  refine ⟨noNonFinite_nanToNone, nanToNone_id, compactChunk_filter, ?_⟩
  intro a b c ha hb hc
  have ha2 := allSan_nanToNoneList a ha
  have hb2 := allSan_nanToNoneList b hb
  have hc2 := allSan_nanToNoneList c hc
  refine ⟨cSeries (nanToNoneList a) (nanToNoneList b) (nanToNoneList c), ?_, ?_, ?_⟩
  · have hser : serialize_data_dict (seriesDict a b c) "json".toList "d".toList
        = .ok (.utf8 (compactChunk (jsonDumps
              (.dict (nanToNoneDict (seriesDict a b c))))),
            "d".toList ++ ".json".toList, "application/json".toList) := by
      unfold serialize_data_dict
      rw [if_neg (by decide), if_pos (by decide)]
    rw [hser, nanToNoneDict_series, compact_series _ _ _ ha2 hb2 hc2]
  · exact cSeries_noNI _ _ _ ha2 hb2 hc2
  · exact parseSeries_cSeries _ _ _ ha2 hb2 hc2

/-- Witness for `c7_json_sanitize_compact_parse` at a concrete series
containing a NaN sample. -/
theorem c7_json_sanitize_compact_parse_witness :
    ∃ bytes : List Char,
      serialize_data_dict
          (seriesDict (PyList.cons (.int 4) .nil)
            (PyList.cons (.float .nan) (PyList.cons (.int 7) .nil))
            (PyList.cons (.float (.fin 2)) .nil))
          "json".toList "d".toList
        = .ok (.utf8 bytes, "d".toList ++ ".json".toList, "application/json".toList)
      ∧ (∀ ch ∈ bytes, ch ≠ 'N' ∧ ch ≠ 'I')
      ∧ parseSeries bytes
          = some (jList (nanToNoneList (PyList.cons (.int 4) .nil)),
              jList (nanToNoneList (PyList.cons (.float .nan) (PyList.cons (.int 7) .nil))),
              jList (nanToNoneList (PyList.cons (.float (.fin 2)) .nil))) :=
  c7_json_sanitize_compact_parse.2.2.2 (PyList.cons (.int 4) .nil)
    (PyList.cons (.float .nan) (PyList.cons (.int 7) .nil))
    (PyList.cons (.float (.fin 2)) .nil)
    (by simp [allNum, numElem])
    (by simp [allNum, numElem])
    (by simp [allNum, numElem, isDyadic, twoAdic])
